import Mathlib

/-!
# Lab2 / es1: a tagged-union record file and its reader

A verification development for `Labs/Lab2/es1` (`structs.h`, `main.c`,
`read_out.c`).

The programs work on raw memory: `main.c` fills an uninitialised array
`ExportData data[100]` field by field and hands the array to `fwrite`;
`read_out.c` hands its own uninitialised array to `fread` and prints the fields.
The embedding keeps this shape.

* Memory is a list of bytes (`List Nat`, one number below 256 per byte); a pointer
  is an index into it.  A store to a member overwrites the bytes of that member
  and no others.
* The layout of the four structs is computed from the declarations of `structs.h`
  by the usual rule (every member at the next multiple of its alignment, the size
  rounded up to the alignment of the struct), for the two data models in use on
  64-bit machines: `LP64` (`long` has 8 bytes) and `LLP64` (`long` has 4 bytes).
  `int` and `float` have 4 bytes, `char` has 1, integers are little-endian
  two's complement.
* `float` is IEEE-754 binary32, held as its 32-bit pattern; conversion from `int`
  and division round to nearest, ties to even.
* `rand()` is a stream `rnd : Nat → Nat` of results together with the number of
  calls made so far; `RAND_MAX` is a parameter.
* A file is the list of its bytes; `fopen`, `fwrite`, `fread` and `fclose` succeed.
* `printf` appends characters to the standard output, a `List Char`.
-/

namespace Lab2

/-! ## Layout of `structs.h` -/

/-- The data model of the C implementation: the size of `long`. -/
inductive DataModel where
  | LP64
  | LLP64
  deriving DecidableEq, Repr

/-- Round `x` up to the next multiple of the alignment `a`. -/
def alignUp (x a : Nat) : Nat := (x + a - 1) / a * a

def sizeofChar : Nat := 1

def sizeofInt : Nat := 4

def sizeofFloat : Nat := 4

def sizeofLong : DataModel → Nat
  | .LP64 => 8
  | .LLP64 => 4

/-- Offset of `float val` in `ValueStruct` (after `int type`). -/
def ValueStruct.off_val : Nat := alignUp (0 + sizeofInt) sizeofFloat

/-- Offset of `long timestamp` in `ValueStruct`. -/
def ValueStruct.off_timestamp (m : DataModel) : Nat :=
  alignUp (ValueStruct.off_val + sizeofFloat) (sizeofLong m)

def ValueStruct.alignof (m : DataModel) : Nat := max sizeofInt (max sizeofFloat (sizeofLong m))

/-- The value of `sizeof(ValueStruct)`. -/
def ValueStruct.sizeof (m : DataModel) : Nat :=
  alignUp (ValueStruct.off_timestamp m + sizeofLong m) (ValueStruct.alignof m)

/-- Offset of `float val[10]` in `MValueStruct` (after `int type`). -/
def MValueStruct.off_val : Nat := alignUp (0 + sizeofInt) sizeofFloat

/-- Offset of `long timestamp` in `MValueStruct`. -/
def MValueStruct.off_timestamp (m : DataModel) : Nat :=
  alignUp (MValueStruct.off_val + 10 * sizeofFloat) (sizeofLong m)

def MValueStruct.alignof (m : DataModel) : Nat := max sizeofInt (max sizeofFloat (sizeofLong m))

/-- The value of `sizeof(MValueStruct)`. -/
def MValueStruct.sizeof (m : DataModel) : Nat :=
  alignUp (MValueStruct.off_timestamp m + sizeofLong m) (MValueStruct.alignof m)

/-- Offset of `char message[21]` in `MessageStruct` (after `int type`). -/
def MessageStruct.off_message : Nat := alignUp (0 + sizeofInt) sizeofChar

def MessageStruct.alignof : Nat := max sizeofInt sizeofChar

/-- The value of `sizeof(MessageStruct)`. -/
def MessageStruct.sizeof : Nat :=
  alignUp (MessageStruct.off_message + 21 * sizeofChar) MessageStruct.alignof

/-- Alignment of the anonymous union of `ExportData`. -/
def ExportData.union_alignof (m : DataModel) : Nat :=
  max (ValueStruct.alignof m) (max (MValueStruct.alignof m) MessageStruct.alignof)

/-- Size of the anonymous union of `ExportData`: its largest member, rounded up. -/
def ExportData.union_sizeof (m : DataModel) : Nat :=
  alignUp (max (ValueStruct.sizeof m) (max (MValueStruct.sizeof m) MessageStruct.sizeof))
    (ExportData.union_alignof m)

/-- Offset of the anonymous union in `ExportData` (after `int type`). -/
def ExportData.off_union (m : DataModel) : Nat :=
  alignUp (0 + sizeofInt) (ExportData.union_alignof m)

def ExportData.alignof (m : DataModel) : Nat := max sizeofInt (ExportData.union_alignof m)

/-- The value of `sizeof(ExportData)`. -/
def ExportData.sizeof (m : DataModel) : Nat :=
  alignUp (ExportData.off_union m + ExportData.union_sizeof m) (ExportData.alignof m)

def TYPE_VALUE : Int := 1

def TYPE_MVALUE : Int := 2

def TYPE_MESSAGE : Int := 3

/-! ### Addresses of the members of the record at address `p` -/

/-- Address of `p->type`. -/
def addr_type (p : Nat) : Nat := p + 0

/-- Address of `p->val.type`. -/
def addr_val_type (m : DataModel) (p : Nat) : Nat := p + ExportData.off_union m + 0

/-- Address of `p->val.val`. -/
def addr_val_val (m : DataModel) (p : Nat) : Nat :=
  p + ExportData.off_union m + ValueStruct.off_val

/-- Address of `p->val.timestamp`. -/
def addr_val_timestamp (m : DataModel) (p : Nat) : Nat :=
  p + ExportData.off_union m + ValueStruct.off_timestamp m

/-- Address of `p->mvals.type`. -/
def addr_mvals_type (m : DataModel) (p : Nat) : Nat := p + ExportData.off_union m + 0

/-- Address of `p->mvals.val[j]`. -/
def addr_mvals_val (m : DataModel) (p j : Nat) : Nat :=
  p + ExportData.off_union m + MValueStruct.off_val + j * sizeofFloat

/-- Address of `p->mvals.timestamp`. -/
def addr_mvals_timestamp (m : DataModel) (p : Nat) : Nat :=
  p + ExportData.off_union m + MValueStruct.off_timestamp m

/-- Address of `p->messages.type`. -/
def addr_messages_type (m : DataModel) (p : Nat) : Nat := p + ExportData.off_union m + 0

/-- Address of `p->messages.message[j]`. -/
def addr_messages_message (m : DataModel) (p j : Nat) : Nat :=
  p + ExportData.off_union m + MessageStruct.off_message + j * sizeofChar

/-- Address of `data[i]` for an array of `ExportData` that starts at `data`. -/
def addr_elem (m : DataModel) (data i : Nat) : Nat := data + i * ExportData.sizeof m

/-! ## Memory -/

/-- Overwrite the bytes at `addr`, `addr + 1`, ... with `bs`. -/
def storeBytes : List Nat → Nat → List Nat → List Nat
  | mem, _, [] => mem
  | mem, addr, b :: bs => storeBytes (mem.set addr b) (addr + 1) bs

/-- The `n` bytes at `addr`. -/
def loadBytes (mem : List Nat) (addr n : Nat) : List Nat := (mem.drop addr).take n

/-- Little-endian bytes of `v`, exactly `n` of them. -/
def encodeLE : Nat → Nat → List Nat
  | 0, _ => []
  | n + 1, v => v % 256 :: encodeLE n (v / 256)

/-- The number with the given little-endian bytes. -/
def decodeLE : List Nat → Nat
  | [] => 0
  | b :: bs => b + 256 * decodeLE bs

/-- Two's complement reading of a `w`-bit pattern. -/
def toSigned (w : Nat) (u : Nat) : Int :=
  if u < 2 ^ (w - 1) then (u : Int) else (u : Int) - 2 ^ w

/-- Two's complement `w`-bit pattern of an integer. -/
def ofSigned (w : Nat) (v : Int) : Nat := (v % 2 ^ w).toNat

def storeInt (mem : List Nat) (addr : Nat) (v : Int) : List Nat :=
  storeBytes mem addr (encodeLE sizeofInt (ofSigned (8 * sizeofInt) v))

def loadInt (mem : List Nat) (addr : Nat) : Int :=
  toSigned (8 * sizeofInt) (decodeLE (loadBytes mem addr sizeofInt))

def storeLong (m : DataModel) (mem : List Nat) (addr : Nat) (v : Int) : List Nat :=
  storeBytes mem addr (encodeLE (sizeofLong m) (ofSigned (8 * sizeofLong m) v))

def loadLong (m : DataModel) (mem : List Nat) (addr : Nat) : Int :=
  toSigned (8 * sizeofLong m) (decodeLE (loadBytes mem addr (sizeofLong m)))

/-- Store a `float`, given as its binary32 pattern. -/
def storeFloat (mem : List Nat) (addr : Nat) (bits : Nat) : List Nat :=
  storeBytes mem addr (encodeLE sizeofFloat (bits % 2 ^ 32))

/-- Load a `float` as its binary32 pattern. -/
def loadFloat (mem : List Nat) (addr : Nat) : Nat :=
  decodeLE (loadBytes mem addr sizeofFloat)

/-- Store a `char` converted from an `int`. -/
def storeChar (mem : List Nat) (addr : Nat) (v : Int) : List Nat :=
  storeBytes mem addr [ofSigned 8 v]

/-- Load one byte. -/
def loadChar (mem : List Nat) (addr : Nat) : Nat :=
  decodeLE (loadBytes mem addr sizeofChar)

/-! ## IEEE-754 binary32 -/

/-- The quotient `n / d` rounded to the nearest integer, ties to even. -/
def rne (n d : Nat) : Nat :=
  if 2 * (n % d) < d then n / d
  else if d < 2 * (n % d) then n / d + 1
  else n / d + n / d % 2

/-- The largest `k` up to the bound with `d * 2 ^ (k + 23) ≤ N`, or 0 when there is none:
for `N / d` in units of `2 ^ -149`, the number of the binade less one. -/
def f32Binade (N d : Nat) : Nat → Nat
  | 0 => 0
  | k + 1 => if d * 2 ^ (k + 24) ≤ N then k + 1 else f32Binade N d k

def f32Inf : Nat := 0x7F800000

def f32NaN : Nat := 0x7FC00000

/-- The binary32 pattern nearest to the positive rational `n / d` (ties to even;
`+inf` from `2 ^ 128` on).  Below the sign bit the patterns of the non-negative floats
are in the order of their values, so the pattern is `k * 2 ^ 23 + s` for the binade
`k` and the rounded significand `s`, carry included. -/
def f32RoundPos (n d : Nat) : Nat :=
  if d * 2 ^ 277 ≤ n * 2 ^ 149 then f32Inf
  else
    let k := f32Binade (n * 2 ^ 149) d 253
    k * 2 ^ 23 + rne (n * 2 ^ 149) (d * 2 ^ k)

/-- The conversion `(float)n` of a non-negative `int`. -/
def f32OfNat (n : Nat) : Nat := if n = 0 then 0 else f32RoundPos n 1

def f32Sign (bits : Nat) : Nat := bits / 2 ^ 31 % 2

def f32Exp (bits : Nat) : Nat := bits / 2 ^ 23 % 256

def f32Frac (bits : Nat) : Nat := bits % 2 ^ 23

def f32IsNaN (bits : Nat) : Bool := f32Exp bits = 255 && f32Frac bits ≠ 0

def f32IsInf (bits : Nat) : Bool := f32Exp bits = 255 && f32Frac bits = 0

def f32IsZero (bits : Nat) : Bool := f32Exp bits = 0 && f32Frac bits = 0

/-- The magnitude of a finite float in units of `2 ^ -150`. -/
def f32Mag (bits : Nat) : Nat :=
  if f32Exp bits = 0 then f32Frac bits * 2 ^ 1
  else (f32Frac bits + 2 ^ 23) * 2 ^ f32Exp bits

/-- The value of a finite float as a rational number. -/
def f32ToRat (bits : Nat) : ℚ :=
  (if f32Sign bits = 1 then -1 else 1) * ((f32Mag bits : ℚ) / 2 ^ 150)

/-- The division `a / b` of two floats. -/
def f32Div (a b : Nat) : Nat :=
  let s := (f32Sign a + f32Sign b) % 2 * 2 ^ 31
  if f32IsNaN a || f32IsNaN b then f32NaN
  else if f32IsInf a then (if f32IsInf b then f32NaN else s + f32Inf)
  else if f32IsInf b then s
  else if f32IsZero b then (if f32IsZero a then f32NaN else s + f32Inf)
  else if f32IsZero a then s
  else s + f32RoundPos (f32Mag a) (f32Mag b)

/-- The expression `(float)rand() / (float)RAND_MAX` for the result `r` of `rand()`. -/
def randFloat (RAND_MAX r : Nat) : Nat := f32Div (f32OfNat r) (f32OfNat RAND_MAX)

/-- The expression `(float)rand() / (float)RAND_MAX` for the result `r` of `rand()`,
read as an exact quotient. -/
def randQuotient (RAND_MAX r : Nat) : ℚ := (r : ℚ) / (RAND_MAX : ℚ)

/-! ## `main.c` -/

/-- The first `n` rounds of the loop over `data->mvals.val` in `generate_export_data`;
the calls of `rand()` in the loop are the calls `k`, `k + 1`, ... -/
def mvals_loop (m : DataModel) (RAND_MAX : Nat) (rnd : Nat → Nat) (data k : Nat) :
    Nat → List Nat → List Nat
  | 0, mem => mem
  | i + 1, mem =>
    storeFloat (mvals_loop m RAND_MAX rnd data k i mem) (addr_mvals_val m data i)
      (randFloat RAND_MAX (rnd (k + i)))

/-- The first `n` rounds of the loop over `data->messages.message` in
`generate_export_data`; `97` is `'a'`. -/
def message_loop (m : DataModel) (rnd : Nat → Nat) (data k : Nat) :
    Nat → List Nat → List Nat
  | 0, mem => mem
  | i + 1, mem =>
    storeChar (message_loop m rnd data k i mem) (addr_messages_message m data i)
      (97 + (rnd (k + i) : Int) % 26)

/-- The function `generate_export_data(ExportData *data)`: from the memory and the
number `k` of calls of `rand()` made so far to the memory and that number afterwards. -/
def generate_export_data (m : DataModel) (RAND_MAX : Nat) (rnd : Nat → Nat)
    (mem : List Nat) (data k : Nat) : List Nat × Nat :=
  let type : Int := (rnd k : Int) % 3 + 1
  let mem := storeInt mem (addr_type data) type
  if type = TYPE_VALUE then
    let mem := storeInt mem (addr_val_type m data) TYPE_VALUE
    let mem := storeFloat mem (addr_val_val m data) (randFloat RAND_MAX (rnd (k + 1)))
    let mem := storeLong m mem (addr_val_timestamp m data) (rnd (k + 2))
    (mem, k + 3)
  else if type = TYPE_MVALUE then
    let mem := storeInt mem (addr_mvals_type m data) TYPE_MVALUE
    let mem := mvals_loop m RAND_MAX rnd data (k + 1) 10 mem
    let mem := storeLong m mem (addr_mvals_timestamp m data) (rnd (k + 11))
    (mem, k + 12)
  else if type = TYPE_MESSAGE then
    let mem := storeInt mem (addr_messages_type m data) TYPE_MESSAGE
    let mem := message_loop m rnd data (k + 1) 20 mem
    let mem := storeChar mem (addr_messages_message m data 20) 0
    (mem, k + 21)
  else (mem, k + 1)

/-- The call `fwrite(ptr, size, n, pf)`: the file with `size * n` bytes appended. -/
def fwrite (mem : List Nat) (ptr size n : Nat) (pf : List Nat) : List Nat :=
  pf ++ loadBytes mem ptr (size * n)

/-- The function `export(ExportData *data, int n, FILE* pf)`, for `n ≥ 0`. -/
def export_ (m : DataModel) (mem : List Nat) (data n : Nat) (pf : List Nat) : List Nat :=
  fwrite mem data (ExportData.sizeof m) n pf

/-- The first `n` rounds of the loop of `main` in `main.c`, on the array `data` at
address 0. -/
def generate_loop (m : DataModel) (RAND_MAX : Nat) (rnd : Nat → Nat) :
    Nat → List Nat → List Nat × Nat
  | 0, mem => (mem, 0)
  | i + 1, mem =>
    generate_export_data m RAND_MAX rnd (generate_loop m RAND_MAX rnd i mem).1
      (addr_elem m 0 i) (generate_loop m RAND_MAX rnd i mem).2

/-- The function `main` of `main.c`: from the stream of `rand()` results and the bytes
found in the uninitialised array `data[100]` to the content of `data.bin` and the exit
status. -/
def MainC.main (m : DataModel) (RAND_MAX : Nat) (rnd : Nat → Nat) (data : List Nat) :
    List Nat × Int :=
  let data := (generate_loop m RAND_MAX rnd 100 data).1
  let pf : List Nat := []
  let pf := export_ m data 0 100 pf
  (pf, 0)

/-! ## `read_out.c` -/

/-- The call `fread(ptr, size, n, pf)` at the start of the file: the memory
afterwards and the number of complete items read. -/
def fread (mem : List Nat) (ptr size n : Nat) (pf : List Nat) : List Nat × Nat :=
  (storeBytes mem ptr (pf.take (size * n)), min (size * n) pf.length / size)

/-- The conversion `%s`: the bytes from `addr` up to the first null byte. -/
def fmtS (mem : List Nat) (addr : Nat) : List Char :=
  ((mem.drop addr).takeWhile (fun b => b ≠ 0)).map Char.ofNat

/-- The decimal digits of a natural number. -/
def fmtNat (n : Nat) : List Char := Nat.toDigits 10 n

/-- The conversion `%ld`. -/
def fmtLd (v : Int) : List Char :=
  if v < 0 then '-' :: fmtNat v.natAbs else fmtNat v.natAbs

/-- The conversion `%f` of a `float` (passed as a `double` of the same value): six
digits after the point, the value rounded to nearest, ties to even. -/
def fmtF (bits : Nat) : List Char :=
  let s : List Char := if f32Sign bits = 1 then ['-'] else []
  if f32Exp bits = 255 then
    s ++ (if f32Frac bits = 0 then ['i', 'n', 'f'] else ['n', 'a', 'n'])
  else
    let q := rne (f32Mag bits * 10 ^ 6) (2 ^ 150)
    let frac := fmtNat (q % 10 ^ 6)
    s ++ fmtNat (q / 10 ^ 6) ++ ['.'] ++ List.replicate (6 - frac.length) '0' ++ frac

/-- The first `n` rounds of the loop over `data[i].mvals.val` in `main` of
`read_out.c`. -/
def print_mvals (m : DataModel) (data : List Nat) (p : Nat) : Nat → List Char
  | 0 => []
  | j + 1 => print_mvals m data p j ++ (fmtF (loadFloat data (addr_mvals_val m p j)) ++ [' '])

/-- The `switch` statement of `main` in `read_out.c` for `data[i]`. -/
def print_record (m : DataModel) (data : List Nat) (i : Nat) : List Char :=
  let p := addr_elem m 0 i
  let type := loadInt data (addr_type p)
  if type = TYPE_VALUE then
    "Value: ".toList ++ fmtF (loadFloat data (addr_val_val m p)) ++ ", timestamp: ".toList
      ++ fmtLd (loadLong m data (addr_val_timestamp m p))
  else if type = TYPE_MVALUE then
    "MValue: ".toList ++ print_mvals m data p 10 ++ ", timestamp: ".toList
      ++ fmtLd (loadLong m data (addr_mvals_timestamp m p))
  else if type = TYPE_MESSAGE then
    "Message: ".toList ++ fmtS data (addr_messages_message m p 0)
  else []

/-- The first `n` rounds of the loop of `main` in `read_out.c`. -/
def print_loop (m : DataModel) (data : List Nat) : Nat → List Char
  | 0 => []
  | i + 1 => print_loop m data i ++ (print_record m data i ++ ['\n'])

/-- The function `main` of `read_out.c`: from the content of `data.bin` and the bytes
found in the uninitialised array `data[100]` to the standard output and the exit
status. -/
def ReadOut.main (m : DataModel) (pf : List Nat) (data : List Nat) : List Char × Int :=
  let data := (fread data 0 (ExportData.sizeof m) 100 pf).1
  (print_loop m data 100, 0)

/-! ## Notions of the specification -/

/-- The twenty letters of a Message record generated from call `k` of `rand()` on. -/
def message_letters (rnd : Nat → Nat) (k : Nat) : List Nat :=
  (List.range 20).map (fun j => 97 + rnd (k + 1 + j) % 26)

/-- The bytes of `messages.message` in a Message record: twenty letters, then the null
byte. -/
def message_bytes (rnd : Nat → Nat) (k : Nat) : List Nat :=
  (List.range 20).map (fun j => 97 + rnd (k + 1 + j) % 26) ++ [0]

/-- The number of calls of `rand()` made by the first `i` calls of
`generate_export_data`: 3 for a Value record, 12 for a MultiValue record and 21 for a
Message record. -/
def rand_calls (rnd : Nat → Nat) : Nat → Nat
  | 0 => 0
  | i + 1 =>
    rand_calls rnd i +
      (if rnd (rand_calls rnd i) % 3 = 0 then 3
       else if rnd (rand_calls rnd i) % 3 = 1 then 12 else 21)

/-- The text that stands for the record generated from call `k` of `rand()` on: for a
Value record its value and its timestamp, for a MultiValue record `val[0]` to `val[9]`
in this order, a space after each, and its timestamp, for a Message record its text. -/
def render_record (RAND_MAX : Nat) (rnd : Nat → Nat) (k : Nat) : List Char :=
  if rnd k % 3 = 0 then
    "Value: ".toList ++ fmtF (randFloat RAND_MAX (rnd (k + 1))) ++ ", timestamp: ".toList
      ++ fmtLd (rnd (k + 2))
  else if rnd k % 3 = 1 then
    "MValue: ".toList
      ++ (List.range 10).flatMap (fun j => fmtF (randFloat RAND_MAX (rnd (k + 1 + j))) ++ [' '])
      ++ ", timestamp: ".toList ++ fmtLd (rnd (k + 11))
  else
    "Message: ".toList ++ (message_letters rnd k).map Char.ofNat

/-- Byte `off` of a record lies in the member at `a` of size `n`. -/
def inField (off a n : Nat) : Bool := decide (a ≤ off ∧ off < a + n)

/-- Byte `off` of a record belongs to the outer `type` or to a member of the variant
that `type` selects: `val.type`, `val.val`, `val.timestamp`; `mvals.type`,
`mvals.val[0..9]`, `mvals.timestamp`; `messages.type`, `messages.message[0..20]`. -/
def isFieldByte (m : DataModel) (type : Int) (off : Nat) : Bool :=
  inField off 0 sizeofInt ||
  (type == TYPE_VALUE &&
    (inField off (ExportData.off_union m + 0) sizeofInt ||
     inField off (ExportData.off_union m + ValueStruct.off_val) sizeofFloat ||
     inField off (ExportData.off_union m + ValueStruct.off_timestamp m) (sizeofLong m))) ||
  (type == TYPE_MVALUE &&
    (inField off (ExportData.off_union m + 0) sizeofInt ||
     inField off (ExportData.off_union m + MValueStruct.off_val) (10 * sizeofFloat) ||
     inField off (ExportData.off_union m + MValueStruct.off_timestamp m) (sizeofLong m))) ||
  (type == TYPE_MESSAGE &&
    (inField off (ExportData.off_union m + 0) sizeofInt ||
     inField off (ExportData.off_union m + MessageStruct.off_message) (21 * sizeofChar)))

/-- The number that a string of decimal digits denotes. -/
def readNat (cs : List Char) : Nat := cs.foldl (fun a c => 10 * a + (c.toNat - 48)) 0

/-- The text `cs` is the decimal numeral of `t`: digits only, at least one, no leading
zero except in the numeral `0` itself, denoting `t`. -/
def isDecimalOf (cs : List Char) (t : Nat) : Bool :=
  !cs.isEmpty && cs.all Char.isDigit && (cs.length == 1 || cs.head? != some '0') &&
    readNat cs == t

/-- The text `cs` is a decimal numeral, a point and six digits, and the number it
denotes is within half a unit of the sixth decimal place of `x`. -/
def isFixed6Of (cs : List Char) (x : ℚ) : Bool :=
  let ip := cs.takeWhile (fun c => c != '.')
  let fp := (cs.dropWhile (fun c => c != '.')).drop 1
  (cs.dropWhile (fun c => c != '.')).head? == some '.' &&
    isDecimalOf ip (readNat ip) && fp.length == 6 && fp.all Char.isDigit &&
    decide (|(readNat (ip ++ fp) : ℚ) / 10 ^ 6 - x| ≤ 1 / (2 * 10 ^ 6))

/-- A sample stream of `rand()` results for `RAND_MAX = 32767`: it makes the first
record a Value record, the second a MultiValue record and the third a Message record. -/
def sample_rand (j : Nat) : Nat :=
  [0, 16384, 77, 1, 0, 1, 2, 3, 32767, 5, 6, 7, 8, 9, 12345, 2, 0, 1, 2, 3, 4, 5, 6, 7, 8, 9,
    10, 11, 12, 13, 14, 15, 16, 17, 18, 25].getD j 5

/-- The text `line` stands for the record generated from call `k` of `rand()` on: for a
Value record `Value: `, the text of its value, `, timestamp: ` and the decimal numeral
of its timestamp; for a MultiValue record `MValue: `, the texts of `val[0]` to `val[9]`
in this order, a space after each, `, timestamp: ` and the decimal numeral of its
timestamp; for a Message record `Message: ` and its twenty letters.  The text of a
value is a decimal numeral with six digits after the point, within half a unit of the
sixth place of the float that the record holds. -/
def IsLineOf (RAND_MAX : Nat) (rnd : Nat → Nat) (k : Nat) (line : List Char) : Prop :=
  if rnd k % 3 = 0 then
    ∃ v t : List Char,
      line = "Value: ".toList ++ v ++ ", timestamp: ".toList ++ t ∧
      isFixed6Of v (f32ToRat (randFloat RAND_MAX (rnd (k + 1)))) = true ∧
      isDecimalOf t (rnd (k + 2)) = true
  else if rnd k % 3 = 1 then
    ∃ (v : Nat → List Char) (t : List Char),
      line = "MValue: ".toList ++ (List.range 10).flatMap (fun j => v j ++ [' '])
        ++ ", timestamp: ".toList ++ t ∧
      (∀ j, j < 10 →
        isFixed6Of (v j) (f32ToRat (randFloat RAND_MAX (rnd (k + 1 + j)))) = true) ∧
      isDecimalOf t (rnd (k + 11)) = true
  else
    line = "Message: ".toList ++ (message_letters rnd k).map Char.ofNat

/-! ## Memory lemmas -/

theorem length_storeBytes (bs : List Nat) : ∀ (mem : List Nat) (addr : Nat),
    (storeBytes mem addr bs).length = mem.length := by
  induction bs with
  | nil => intro mem addr; rfl
  | cons b bs ih => intro mem addr; simp [storeBytes, ih]

theorem getElem?_storeBytes (bs : List Nat) : ∀ (mem : List Nat) (addr j : Nat),
    (storeBytes mem addr bs)[j]? =
      if addr ≤ j ∧ j < addr + bs.length ∧ j < mem.length then bs[j - addr]? else mem[j]? := by
  induction bs with
  | nil =>
    intro mem addr j
    have : ¬ (addr ≤ j ∧ j < addr + 0 ∧ j < mem.length) := by omega
    simp only [storeBytes, List.length_nil]
    rw [if_neg this]
  | cons b bs ih =>
    intro mem addr j
    simp only [storeBytes, ih, List.length_set, List.length_cons, List.getElem?_set]
    by_cases h1 : addr + 1 ≤ j ∧ j < addr + 1 + bs.length ∧ j < mem.length
    · have h2 : addr ≤ j ∧ j < addr + (bs.length + 1) ∧ j < mem.length := by omega
      rw [if_pos h1, if_pos h2]
      obtain ⟨d, hd⟩ : ∃ d, j - addr = d + 1 := ⟨j - addr - 1, by omega⟩
      have : j - (addr + 1) = d := by omega
      rw [hd, this, List.getElem?_cons_succ]
    · rw [if_neg h1]
      by_cases h3 : addr = j
      · subst h3
        by_cases h4 : addr < mem.length
        · have h2 : addr ≤ addr ∧ addr < addr + (bs.length + 1) ∧ addr < mem.length := by omega
          rw [if_pos h2]; simp [h4]
        · have h2 : ¬ (addr ≤ addr ∧ addr < addr + (bs.length + 1) ∧ addr < mem.length) := by
            omega
          rw [if_neg h2]; simp [h4]
          omega
      · have h2 : ¬ (addr ≤ j ∧ j < addr + (bs.length + 1) ∧ j < mem.length) := by omega
        rw [if_neg h2, if_neg h3]

theorem getElem?_storeBytes_of_not_mem (mem : List Nat) (addr : Nat) (bs : List Nat) (j : Nat)
    (h : j < addr ∨ addr + bs.length ≤ j) : (storeBytes mem addr bs)[j]? = mem[j]? := by
  rw [getElem?_storeBytes, if_neg (by omega)]

theorem getElem?_loadBytes (mem : List Nat) (addr n j : Nat) :
    (loadBytes mem addr n)[j]? = if j < n then mem[addr + j]? else none := by
  simp [loadBytes, List.getElem?_take, List.getElem?_drop]

theorem length_loadBytes (mem : List Nat) (addr n : Nat) :
    (loadBytes mem addr n).length = min n (mem.length - addr) := by
  simp [loadBytes]

theorem loadBytes_congr (m1 m2 : List Nat) (addr n : Nat)
    (h : ∀ j, addr ≤ j → j < addr + n → m1[j]? = m2[j]?) :
    loadBytes m1 addr n = loadBytes m2 addr n := by
  apply List.ext_getElem?
  intro j
  rw [getElem?_loadBytes, getElem?_loadBytes]
  split
  · exact h _ (by omega) (by omega)
  · rfl

theorem loadBytes_storeBytes_same (mem : List Nat) (addr : Nat) (bs : List Nat)
    (h : addr + bs.length ≤ mem.length) :
    loadBytes (storeBytes mem addr bs) addr bs.length = bs := by
  apply List.ext_getElem?
  intro j
  rw [getElem?_loadBytes, getElem?_storeBytes]
  by_cases hj : j < bs.length
  · rw [if_pos hj, if_pos (by omega)]
    congr 1; omega
  · rw [if_neg hj]
    exact (List.getElem?_eq_none (by omega)).symm

/-- A load inside a region is a load from the image of the region. -/
theorem loadBytes_loadBytes (mem : List Nat) (p s off n : Nat) (h : off + n ≤ s) :
    loadBytes (loadBytes mem p s) off n = loadBytes mem (p + off) n := by
  apply List.ext_getElem?
  intro j
  simp only [getElem?_loadBytes]
  by_cases hj : j < n
  · rw [if_pos hj, if_pos (show off + j < s by omega), if_pos hj]
    congr 1; omega
  · rw [if_neg hj, if_neg hj]

theorem loadBytes_zero_length (mem : List Nat) : loadBytes mem 0 mem.length = mem := by
  simp [loadBytes]

theorem length_encodeLE (n : Nat) : ∀ v, (encodeLE n v).length = n := by
  induction n with
  | zero => intro v; rfl
  | succ n ih => intro v; simp [encodeLE, ih]

theorem decodeLE_encodeLE (n : Nat) : ∀ v, decodeLE (encodeLE n v) = v % 256 ^ n := by
  induction n with
  | zero => intro v; simp [encodeLE, decodeLE, Nat.mod_one]
  | succ n ih =>
    intro v
    simp only [encodeLE, decodeLE, ih]
    rw [pow_succ, mul_comm (256 ^ n) 256, Nat.mod_mul]

/-! ## Layout facts -/

theorem sizeof_ExportData (m : DataModel) :
    ExportData.sizeof m = match m with
      | .LP64 => 64
      | .LLP64 => 52 := by
  cases m <;> rfl

theorem off_union_eq (m : DataModel) :
    ExportData.off_union m = match m with
      | .LP64 => 8
      | .LLP64 => 4 := by
  cases m <;> rfl

theorem off_val_ValueStruct : ValueStruct.off_val = 4 := rfl

theorem off_timestamp_ValueStruct (m : DataModel) : ValueStruct.off_timestamp m = 8 := by
  cases m <;> rfl

theorem off_val_MValueStruct : MValueStruct.off_val = 4 := rfl

theorem off_timestamp_MValueStruct (m : DataModel) :
    MValueStruct.off_timestamp m = match m with
      | .LP64 => 48
      | .LLP64 => 44 := by
  cases m <;> rfl

theorem off_message_MessageStruct : MessageStruct.off_message = 4 := rfl

theorem sizeofLong_eq (m : DataModel) :
    sizeofLong m = match m with
      | .LP64 => 8
      | .LLP64 => 4 := by
  cases m <;> rfl

/-! ## Typed loads and stores -/

theorem length_storeInt (mem : List Nat) (a : Nat) (v : Int) :
    (storeInt mem a v).length = mem.length := length_storeBytes _ _ _

theorem length_storeLong (m : DataModel) (mem : List Nat) (a : Nat) (v : Int) :
    (storeLong m mem a v).length = mem.length := length_storeBytes _ _ _

theorem length_storeFloat (mem : List Nat) (a : Nat) (v : Nat) :
    (storeFloat mem a v).length = mem.length := length_storeBytes _ _ _

theorem length_storeChar (mem : List Nat) (a : Nat) (v : Int) :
    (storeChar mem a v).length = mem.length := length_storeBytes _ _ _

theorem getElem?_storeInt (mem : List Nat) (a : Nat) (v : Int) (j : Nat)
    (h : j < a ∨ a + 4 ≤ j) : (storeInt mem a v)[j]? = mem[j]? :=
  getElem?_storeBytes_of_not_mem _ _ _ _ (by rw [length_encodeLE]; exact h)

theorem getElem?_storeFloat (mem : List Nat) (a : Nat) (v : Nat) (j : Nat)
    (h : j < a ∨ a + 4 ≤ j) : (storeFloat mem a v)[j]? = mem[j]? :=
  getElem?_storeBytes_of_not_mem _ _ _ _ (by rw [length_encodeLE]; exact h)

theorem getElem?_storeLong (m : DataModel) (mem : List Nat) (a : Nat) (v : Int) (j : Nat)
    (h : j < a ∨ a + sizeofLong m ≤ j) : (storeLong m mem a v)[j]? = mem[j]? :=
  getElem?_storeBytes_of_not_mem _ _ _ _ (by rw [length_encodeLE]; exact h)

theorem getElem?_storeChar (mem : List Nat) (a : Nat) (v : Int) (j : Nat)
    (h : j < a ∨ a + 1 ≤ j) : (storeChar mem a v)[j]? = mem[j]? :=
  getElem?_storeBytes_of_not_mem _ _ _ _ (by simpa using h)

theorem loadBytes_storeInt_same (mem : List Nat) (a : Nat) (v : Int) (h : a + 4 ≤ mem.length) :
    loadBytes (storeInt mem a v) a 4 = encodeLE 4 (ofSigned 32 v) := by
  have := loadBytes_storeBytes_same mem a (encodeLE 4 (ofSigned 32 v))
    (by rw [length_encodeLE]; exact h)
  rw [length_encodeLE] at this
  exact this

theorem loadBytes_storeFloat_same (mem : List Nat) (a : Nat) (v : Nat) (h : a + 4 ≤ mem.length) :
    loadBytes (storeFloat mem a v) a 4 = encodeLE 4 (v % 2 ^ 32) := by
  have := loadBytes_storeBytes_same mem a (encodeLE 4 (v % 2 ^ 32))
    (by rw [length_encodeLE]; exact h)
  rw [length_encodeLE] at this
  exact this

theorem loadBytes_storeLong_same (m : DataModel) (mem : List Nat) (a : Nat) (v : Int)
    (h : a + sizeofLong m ≤ mem.length) :
    loadBytes (storeLong m mem a v) a (sizeofLong m) =
      encodeLE (sizeofLong m) (ofSigned (8 * sizeofLong m) v) := by
  have := loadBytes_storeBytes_same mem a
    (encodeLE (sizeofLong m) (ofSigned (8 * sizeofLong m) v)) (by rw [length_encodeLE]; exact h)
  rw [length_encodeLE] at this
  exact this

theorem loadBytes_storeChar_same (mem : List Nat) (a : Nat) (v : Int) (h : a + 1 ≤ mem.length) :
    loadBytes (storeChar mem a v) a 1 = [ofSigned 8 v] :=
  loadBytes_storeBytes_same mem a [ofSigned 8 v] (by simpa using h)

theorem decodeLE_encodeLE_of_lt (n v : Nat) (h : v < 256 ^ n) :
    decodeLE (encodeLE n v) = v := by
  rw [decodeLE_encodeLE, Nat.mod_eq_of_lt h]

theorem loadBytes_storeInt_of_disjoint (mem : List Nat) (a : Nat) (v : Int) (a2 n : Nat)
    (h : a2 + n ≤ a ∨ a + 4 ≤ a2) : loadBytes (storeInt mem a v) a2 n = loadBytes mem a2 n :=
  loadBytes_congr _ _ _ _ (fun j _ _ => getElem?_storeInt _ _ _ _ (by omega))

theorem loadBytes_storeFloat_of_disjoint (mem : List Nat) (a : Nat) (v : Nat) (a2 n : Nat)
    (h : a2 + n ≤ a ∨ a + 4 ≤ a2) : loadBytes (storeFloat mem a v) a2 n = loadBytes mem a2 n :=
  loadBytes_congr _ _ _ _ (fun j _ _ => getElem?_storeFloat _ _ _ _ (by omega))

theorem loadBytes_storeLong_of_disjoint (m : DataModel) (mem : List Nat) (a : Nat) (v : Int)
    (a2 n : Nat) (h : a2 + n ≤ a ∨ a + sizeofLong m ≤ a2) :
    loadBytes (storeLong m mem a v) a2 n = loadBytes mem a2 n :=
  loadBytes_congr _ _ _ _ (fun j _ _ => getElem?_storeLong _ _ _ _ _ (by omega))

theorem loadBytes_storeChar_of_disjoint (mem : List Nat) (a : Nat) (v : Int) (a2 n : Nat)
    (h : a2 + n ≤ a ∨ a + 1 ≤ a2) : loadBytes (storeChar mem a v) a2 n = loadBytes mem a2 n :=
  loadBytes_congr _ _ _ _ (fun j _ _ => getElem?_storeChar _ _ _ _ (by omega))

/-! ## The loops of `generate_export_data` -/

theorem length_mvals_loop (m : DataModel) (RAND_MAX : Nat) (rnd : Nat → Nat) (p k : Nat)
    (mem : List Nat) (n : Nat) : (mvals_loop m RAND_MAX rnd p k n mem).length = mem.length := by
  induction n with
  | zero => rfl
  | succ n ih => rw [mvals_loop, length_storeFloat, ih]

theorem getElem?_mvals_loop (m : DataModel) (RAND_MAX : Nat) (rnd : Nat → Nat) (p k : Nat)
    (mem : List Nat) (n j : Nat)
    (h : j < addr_mvals_val m p 0 ∨ addr_mvals_val m p n ≤ j) :
    (mvals_loop m RAND_MAX rnd p k n mem)[j]? = mem[j]? := by
  induction n with
  | zero => rfl
  | succ n ih =>
    simp only [addr_mvals_val, sizeofFloat] at h ih
    rw [mvals_loop, getElem?_storeFloat _ _ _ _ (by simp only [addr_mvals_val, sizeofFloat]; omega)]
    exact ih (by omega)

theorem loadBytes_mvals_loop_of_disjoint (m : DataModel) (RAND_MAX : Nat) (rnd : Nat → Nat)
    (p k : Nat) (mem : List Nat) (n a2 len : Nat)
    (h : a2 + len ≤ addr_mvals_val m p 0 ∨ addr_mvals_val m p n ≤ a2) :
    loadBytes (mvals_loop m RAND_MAX rnd p k n mem) a2 len = loadBytes mem a2 len :=
  loadBytes_congr _ _ _ _ (fun j _ _ => getElem?_mvals_loop _ _ _ _ _ _ _ _ (by omega))

theorem loadBytes_mvals_loop (m : DataModel) (RAND_MAX : Nat) (rnd : Nat → Nat) (p k : Nat)
    (mem : List Nat) (n i : Nat) (hi : i < n) (h : addr_mvals_val m p n ≤ mem.length) :
    loadBytes (mvals_loop m RAND_MAX rnd p k n mem) (addr_mvals_val m p i) 4 =
      encodeLE 4 (randFloat RAND_MAX (rnd (k + i)) % 2 ^ 32) := by
  induction n with
  | zero => omega
  | succ n ih =>
    simp only [addr_mvals_val, sizeofFloat] at h ih
    rw [mvals_loop]
    by_cases hin : i = n
    · subst hin
      exact loadBytes_storeFloat_same _ _ _
        (by rw [length_mvals_loop]; simp only [addr_mvals_val, sizeofFloat]; omega)
    · rw [loadBytes_storeFloat_of_disjoint _ _ _ _ _
        (by simp only [addr_mvals_val, sizeofFloat]; omega)]
      exact ih (by omega) (by omega)

theorem length_message_loop (m : DataModel) (rnd : Nat → Nat) (p k : Nat)
    (mem : List Nat) (n : Nat) : (message_loop m rnd p k n mem).length = mem.length := by
  induction n with
  | zero => rfl
  | succ n ih => rw [message_loop, length_storeChar, ih]

theorem getElem?_message_loop (m : DataModel) (rnd : Nat → Nat) (p k : Nat)
    (mem : List Nat) (n j : Nat)
    (h : j < addr_messages_message m p 0 ∨ addr_messages_message m p n ≤ j) :
    (message_loop m rnd p k n mem)[j]? = mem[j]? := by
  induction n with
  | zero => rfl
  | succ n ih =>
    simp only [addr_messages_message, sizeofChar] at h ih
    rw [message_loop,
      getElem?_storeChar _ _ _ _ (by simp only [addr_messages_message, sizeofChar]; omega)]
    exact ih (by omega)

theorem loadBytes_message_loop_of_disjoint (m : DataModel) (rnd : Nat → Nat)
    (p k : Nat) (mem : List Nat) (n a2 len : Nat)
    (h : a2 + len ≤ addr_messages_message m p 0 ∨ addr_messages_message m p n ≤ a2) :
    loadBytes (message_loop m rnd p k n mem) a2 len = loadBytes mem a2 len :=
  loadBytes_congr _ _ _ _ (fun j _ _ => getElem?_message_loop _ _ _ _ _ _ _ (by omega))

theorem loadBytes_message_loop (m : DataModel) (rnd : Nat → Nat) (p k : Nat)
    (mem : List Nat) (n i : Nat) (hi : i < n) (h : addr_messages_message m p n ≤ mem.length) :
    loadBytes (message_loop m rnd p k n mem) (addr_messages_message m p i) 1 =
      [ofSigned 8 (97 + (rnd (k + i) : Int) % 26)] := by
  induction n with
  | zero => omega
  | succ n ih =>
    simp only [addr_messages_message, sizeofChar] at h ih
    rw [message_loop]
    by_cases hin : i = n
    · subst hin
      exact loadBytes_storeChar_same _ _ _
        (by rw [length_message_loop]; simp only [addr_messages_message, sizeofChar]; omega)
    · rw [loadBytes_storeChar_of_disjoint _ _ _ _ _
        (by simp only [addr_messages_message, sizeofChar]; omega)]
      exact ih (by omega) (by omega)

/-! ## The three cases of `generate_export_data` -/

theorem generate_value (m : DataModel) (RAND_MAX : Nat) (rnd : Nat → Nat) (mem : List Nat)
    (p k : Nat) (h : rnd k % 3 = 0) :
    generate_export_data m RAND_MAX rnd mem p k =
      (storeLong m (storeFloat (storeInt (storeInt mem (addr_type p) 1) (addr_val_type m p) 1)
        (addr_val_val m p) (randFloat RAND_MAX (rnd (k + 1))))
        (addr_val_timestamp m p) (rnd (k + 2)), k + 3) := by
  have hz : (rnd k : Int) % 3 = 0 := by omega
  simp [generate_export_data, hz, TYPE_VALUE]

theorem generate_mvalue (m : DataModel) (RAND_MAX : Nat) (rnd : Nat → Nat) (mem : List Nat)
    (p k : Nat) (h : rnd k % 3 = 1) :
    generate_export_data m RAND_MAX rnd mem p k =
      (storeLong m (mvals_loop m RAND_MAX rnd p (k + 1) 10
        (storeInt (storeInt mem (addr_type p) 2) (addr_mvals_type m p) 2))
        (addr_mvals_timestamp m p) (rnd (k + 11)), k + 12) := by
  have hz : (rnd k : Int) % 3 = 1 := by omega
  simp [generate_export_data, hz, TYPE_VALUE, TYPE_MVALUE]

theorem generate_message (m : DataModel) (rnd : Nat → Nat) (RAND_MAX : Nat) (mem : List Nat)
    (p k : Nat) (h : rnd k % 3 = 2) :
    generate_export_data m RAND_MAX rnd mem p k =
      (storeChar (message_loop m rnd p (k + 1) 20
        (storeInt (storeInt mem (addr_type p) 3) (addr_messages_type m p) 3))
        (addr_messages_message m p 20) 0, k + 21) := by
  have hz : (rnd k : Int) % 3 = 2 := by omega
  simp [generate_export_data, hz, TYPE_VALUE, TYPE_MVALUE, TYPE_MESSAGE]

theorem length_generate (m : DataModel) (RAND_MAX : Nat) (rnd : Nat → Nat) (mem : List Nat)
    (p k : Nat) : (generate_export_data m RAND_MAX rnd mem p k).1.length = mem.length := by
  have h3 : rnd k % 3 = 0 ∨ rnd k % 3 = 1 ∨ rnd k % 3 = 2 := by omega
  rcases h3 with h | h | h
  · rw [generate_value _ _ _ _ _ _ h]
    simp only [length_storeLong, length_storeFloat, length_storeInt]
  · rw [generate_mvalue _ _ _ _ _ _ h]
    simp only [length_storeLong, length_mvals_loop, length_storeInt]
  · rw [generate_message _ _ _ _ _ _ h]
    simp only [length_storeChar, length_message_loop, length_storeInt]

/-! ## Rounding -/

theorem div_le_rne (n d : Nat) : n / d ≤ rne n d := by
  unfold rne
  split
  · exact le_rfl
  · split <;> omega

theorem rne_le_div_succ (n d : Nat) : rne n d ≤ n / d + 1 := by
  unfold rne
  split
  · omega
  · split <;> omega

theorem rne_le_of_lt (n d b : Nat) (h : n < d * b) : rne n d ≤ b := by
  have h1 : n / d < b := Nat.div_lt_of_lt_mul h
  have := rne_le_div_succ n d
  omega

theorem le_rne_of_le (n d b : Nat) (hd : 0 < d) (h : d * b ≤ n) : b ≤ rne n d := by
  have h1 : b ≤ n / d := (Nat.le_div_iff_mul_le hd).2 (by rw [mul_comm]; exact h)
  have := div_le_rne n d
  omega

theorem f32Binade_succ (N d k : Nat) :
    f32Binade N d (k + 1) = if d * 2 ^ (k + 24) ≤ N then k + 1 else f32Binade N d k := rfl

theorem f32Binade_le (N d : Nat) (K : Nat) : f32Binade N d K ≤ K := by
  induction K with
  | zero => exact le_rfl
  | succ K ih =>
    rw [f32Binade_succ]
    split
    · exact le_rfl
    · omega

theorem f32Binade_upper (N d : Nat) (K : Nat) (h : N < d * 2 ^ (K + 24)) :
    N < d * 2 ^ (f32Binade N d K + 24) := by
  induction K with
  | zero => exact h
  | succ K ih =>
    rw [f32Binade_succ]
    split
    · exact h
    · exact ih (by omega)

theorem f32Binade_lower (N d : Nat) (K : Nat) (h : 0 < f32Binade N d K) :
    d * 2 ^ (f32Binade N d K + 23) ≤ N := by
  induction K with
  | zero => exact absurd h (lt_irrefl 0)
  | succ K ih =>
    rw [f32Binade_succ] at h ⊢
    split
    · next hc => exact hc
    · next hc =>
      rw [if_neg hc] at h
      exact ih h

theorem f32RoundPos_le (n d : Nat) : f32RoundPos n d ≤ f32Inf := by
  unfold f32RoundPos
  split
  · exact le_rfl
  · next hc =>
    have hlt : n * 2 ^ 149 < d * 2 ^ (253 + 24) := by
      have : (253 + 24 : Nat) = 277 := rfl
      rw [this]; omega
    have h1 := f32Binade_le (n * 2 ^ 149) d 253
    have h2 := f32Binade_upper (n * 2 ^ 149) d 253 hlt
    have h3 : rne (n * 2 ^ 149) (d * 2 ^ f32Binade (n * 2 ^ 149) d 253) ≤ 2 ^ 24 := by
      apply rne_le_of_lt
      rw [mul_assoc, ← pow_add]
      exact h2
    have h4 : f32Binade (n * 2 ^ 149) d 253 * 2 ^ 23 ≤ 253 * 2 ^ 23 :=
      Nat.mul_le_mul_right _ h1
    simp only [f32Inf]
    show f32Binade (n * 2 ^ 149) d 253 * 2 ^ 23 +
      rne (n * 2 ^ 149) (d * 2 ^ f32Binade (n * 2 ^ 149) d 253) ≤ 0x7F800000
    norm_num at h3 h4 ⊢
    omega

theorem f32Div_lt (a b : Nat) : f32Div a b < 2 ^ 32 := by
  have hs : (f32Sign a + f32Sign b) % 2 * 2 ^ 31 ≤ 2 ^ 31 := by
    have : (f32Sign a + f32Sign b) % 2 ≤ 1 := by omega
    calc (f32Sign a + f32Sign b) % 2 * 2 ^ 31 ≤ 1 * 2 ^ 31 := Nat.mul_le_mul_right _ this
      _ = 2 ^ 31 := by norm_num
  have hr := f32RoundPos_le (f32Mag a) (f32Mag b)
  simp only [f32Inf] at hr
  unfold f32Div
  simp only [f32Inf, f32NaN]
  norm_num at hs hr ⊢
  split_ifs <;> omega

theorem randFloat_lt (RAND_MAX r : Nat) : randFloat RAND_MAX r < 2 ^ 32 := f32Div_lt _ _

theorem isFieldByte_lt_sizeof (m : DataModel) (type : Int) (off : Nat)
    (h : isFieldByte m type off = true) : off < ExportData.sizeof m := by
  cases m <;>
  simp [isFieldByte, inField, sizeof_ExportData, off_union_eq, off_val_ValueStruct,
    off_timestamp_ValueStruct, off_val_MValueStruct, off_timestamp_MValueStruct,
    off_message_MessageStruct, sizeofLong_eq, sizeofInt, sizeofFloat, sizeofChar] at h ⊢ <;>
  omega

/-- Frame: `generate_export_data` changes no byte outside the outer `type` and the
members of the variant it selects. -/
theorem getElem?_generate (m : DataModel) (RAND_MAX : Nat) (rnd : Nat → Nat) (mem : List Nat)
    (p k j : Nat)
    (h : j < p ∨ isFieldByte m ((rnd k : Int) % 3 + 1) (j - p) = false) :
    (generate_export_data m RAND_MAX rnd mem p k).1[j]? = mem[j]? := by
  have h3 : rnd k % 3 = 0 ∨ rnd k % 3 = 1 ∨ rnd k % 3 = 2 := by omega
  rcases h3 with h0 | h0 | h0
  · have hz : (rnd k : Int) % 3 = 0 := by omega
    rw [generate_value _ _ _ _ _ _ h0]
    simp only [hz, isFieldByte, inField, TYPE_VALUE, TYPE_MVALUE, TYPE_MESSAGE,
      off_val_ValueStruct, off_timestamp_ValueStruct, sizeofInt, sizeofFloat] at h
    simp at h
    rw [getElem?_storeLong _ _ _ _ _
        (by simp only [addr_val_timestamp, off_timestamp_ValueStruct]; omega),
      getElem?_storeFloat _ _ _ _ (by simp only [addr_val_val, off_val_ValueStruct]; omega),
      getElem?_storeInt _ _ _ _ (by simp only [addr_val_type]; omega),
      getElem?_storeInt _ _ _ _ (by simp only [addr_type]; omega)]
  · have hz : (rnd k : Int) % 3 = 1 := by omega
    rw [generate_mvalue _ _ _ _ _ _ h0]
    simp only [hz, isFieldByte, inField, TYPE_VALUE, TYPE_MVALUE, TYPE_MESSAGE,
      off_val_MValueStruct, sizeofInt, sizeofFloat] at h
    simp at h
    rw [getElem?_storeLong _ _ _ _ _ (by simp only [addr_mvals_timestamp]; omega),
      getElem?_mvals_loop _ _ _ _ _ _ _ _
        (by simp only [addr_mvals_val, off_val_MValueStruct, sizeofFloat]; omega),
      getElem?_storeInt _ _ _ _ (by simp only [addr_mvals_type]; omega),
      getElem?_storeInt _ _ _ _ (by simp only [addr_type]; omega)]
  · have hz : (rnd k : Int) % 3 = 2 := by omega
    rw [generate_message _ _ _ _ _ _ h0]
    simp only [hz, isFieldByte, inField, TYPE_VALUE, TYPE_MVALUE, TYPE_MESSAGE,
      off_message_MessageStruct, sizeofInt, sizeofChar] at h
    simp at h
    rw [getElem?_storeChar _ _ _ _
        (by simp only [addr_messages_message, off_message_MessageStruct, sizeofChar]; omega),
      getElem?_message_loop _ _ _ _ _ _ _
        (by simp only [addr_messages_message, off_message_MessageStruct, sizeofChar]; omega),
      getElem?_storeInt _ _ _ _ (by simp only [addr_messages_type]; omega),
      getElem?_storeInt _ _ _ _ (by simp only [addr_type]; omega)]

theorem getElem?_generate_of_outside (m : DataModel) (RAND_MAX : Nat) (rnd : Nat → Nat)
    (mem : List Nat) (p k j : Nat) (h : j < p ∨ p + ExportData.sizeof m ≤ j) :
    (generate_export_data m RAND_MAX rnd mem p k).1[j]? = mem[j]? := by
  apply getElem?_generate
  rcases h with h | h
  · exact Or.inl h
  · right
    by_contra hc
    have := isFieldByte_lt_sizeof m _ _ (by simpa using hc)
    omega

/-! ## What `generate_export_data` leaves in the record -/

theorem layout_bounds (m : DataModel) :
    4 ≤ ExportData.off_union m ∧
    ExportData.off_union m + 8 + sizeofLong m ≤ ExportData.sizeof m ∧
    44 ≤ MValueStruct.off_timestamp m ∧
    ExportData.off_union m + MValueStruct.off_timestamp m + sizeofLong m ≤ ExportData.sizeof m ∧
    ExportData.off_union m + 25 ≤ ExportData.sizeof m ∧
    4 ≤ sizeofLong m := by
  cases m <;> decide

theorem toSigned_decodeLE_int (v : Nat) (hv : v < 2 ^ 31) :
    toSigned (8 * sizeofInt) (decodeLE (encodeLE 4 (ofSigned 32 (v : Int)))) = (v : Int) := by
  have h1 : ofSigned 32 (v : Int) = v := by
    unfold ofSigned
    have : ((v : Int) % 2 ^ 32) = ((v % 2 ^ 32 : Nat) : Int) := by push_cast; rfl
    rw [this, Int.toNat_natCast, Nat.mod_eq_of_lt (by omega)]
  rw [h1, decodeLE_encodeLE_of_lt _ _ (by norm_num; omega)]
  unfold toSigned
  rw [if_pos (by simp only [sizeofInt]; norm_num; omega)]

theorem toSigned_decodeLE_long (m : DataModel) (v : Nat) (hv : v < 2 ^ 31) :
    toSigned (8 * sizeofLong m)
      (decodeLE (encodeLE (sizeofLong m) (ofSigned (8 * sizeofLong m) (v : Int)))) = (v : Int) := by
  have h1 : ofSigned (8 * sizeofLong m) (v : Int) = v := by
    unfold ofSigned
    have : ((v : Int) % 2 ^ (8 * sizeofLong m)) = ((v % 2 ^ (8 * sizeofLong m) : Nat) : Int) := by
      push_cast; rfl
    rw [this, Int.toNat_natCast, Nat.mod_eq_of_lt (by cases m <;> simp [sizeofLong] <;> omega)]
  rw [h1, decodeLE_encodeLE_of_lt _ _ (by cases m <;> simp [sizeofLong] <;> omega)]
  unfold toSigned
  rw [if_pos (by cases m <;> simp [sizeofLong] <;> omega)]

theorem loadLong_storeLong (m : DataModel) (mem : List Nat) (a : Nat) (v : Nat) (hv : v < 2 ^ 31)
    (h : a + sizeofLong m ≤ mem.length) :
    loadLong m (storeLong m mem a (v : Int)) a = (v : Int) := by
  unfold loadLong
  rw [loadBytes_storeLong_same _ _ _ _ h]
  exact toSigned_decodeLE_long m v hv

theorem loadFloat_storeFloat (mem : List Nat) (a : Nat) (v : Nat) (hv : v < 2 ^ 32)
    (h : a + 4 ≤ mem.length) : loadFloat (storeFloat mem a v) a = v := by
  unfold loadFloat
  rw [show sizeofFloat = 4 from rfl, loadBytes_storeFloat_same _ _ _ h,
    Nat.mod_eq_of_lt hv, decodeLE_encodeLE_of_lt _ _ (by norm_num; omega)]

/-- After `generate_export_data` the outer `type` holds `rand() % 3 + 1`. -/
theorem loadInt_type_generate (m : DataModel) (RAND_MAX : Nat) (rnd : Nat → Nat)
    (mem : List Nat) (p k : Nat) (hp : p + ExportData.sizeof m ≤ mem.length) :
    loadInt (generate_export_data m RAND_MAX rnd mem p k).1 (addr_type p) =
      (rnd k : Int) % 3 + 1 := by
  obtain ⟨b1, b2, b3, b4, b5, b6⟩ := layout_bounds m
  have h3 : rnd k % 3 = 0 ∨ rnd k % 3 = 1 ∨ rnd k % 3 = 2 := by omega
  have key : ∀ v : Nat, v < 2 ^ 31 →
      toSigned (8 * sizeofInt) (decodeLE (loadBytes (storeInt mem (addr_type p) (v : Int))
        (addr_type p) 4)) = (v : Int) := by
    intro v hv
    rw [loadBytes_storeInt_same _ _ _ (by simp only [addr_type]; omega)]
    exact toSigned_decodeLE_int v hv
  unfold loadInt
  rw [show sizeofInt = 4 from rfl]
  rcases h3 with h | h | h
  · rw [generate_value _ _ _ _ _ _ h,
      loadBytes_storeLong_of_disjoint _ _ _ _ _ _
        (by simp only [addr_type, addr_val_timestamp, off_timestamp_ValueStruct]; omega),
      loadBytes_storeFloat_of_disjoint _ _ _ _ _
        (by simp only [addr_type, addr_val_val, off_val_ValueStruct]; omega),
      loadBytes_storeInt_of_disjoint _ _ _ _ _ (by simp only [addr_type, addr_val_type]; omega)]
    have := key 1 (by norm_num)
    rw [show ((rnd k : Int) % 3 + 1) = ((1 : Nat) : Int) by omega]
    exact this
  · rw [generate_mvalue _ _ _ _ _ _ h,
      loadBytes_storeLong_of_disjoint _ _ _ _ _ _
        (by simp only [addr_type, addr_mvals_timestamp]; omega),
      loadBytes_mvals_loop_of_disjoint _ _ _ _ _ _ _ _ _
        (by simp only [addr_type, addr_mvals_val, off_val_MValueStruct, sizeofFloat]; omega),
      loadBytes_storeInt_of_disjoint _ _ _ _ _ (by simp only [addr_type, addr_mvals_type]; omega)]
    have := key 2 (by norm_num)
    rw [show ((rnd k : Int) % 3 + 1) = ((2 : Nat) : Int) by omega]
    exact this
  · rw [generate_message _ _ _ _ _ _ h,
      loadBytes_storeChar_of_disjoint _ _ _ _ _
        (by simp only [addr_type, addr_messages_message, off_message_MessageStruct,
          sizeofChar]; omega),
      loadBytes_message_loop_of_disjoint _ _ _ _ _ _ _ _
        (by simp only [addr_type, addr_messages_message, off_message_MessageStruct,
          sizeofChar]; omega),
      loadBytes_storeInt_of_disjoint _ _ _ _ _
        (by simp only [addr_type, addr_messages_type]; omega)]
    have := key 3 (by norm_num)
    rw [show ((rnd k : Int) % 3 + 1) = ((3 : Nat) : Int) by omega]
    exact this

/-- After `generate_export_data` the `type` inside the union holds `rand() % 3 + 1`. -/
theorem loadInt_inner_type_generate (m : DataModel) (RAND_MAX : Nat) (rnd : Nat → Nat)
    (mem : List Nat) (p k : Nat) (hp : p + ExportData.sizeof m ≤ mem.length) :
    loadInt (generate_export_data m RAND_MAX rnd mem p k).1 (addr_val_type m p) =
      (rnd k : Int) % 3 + 1 := by
  obtain ⟨b1, b2, b3, b4, b5, b6⟩ := layout_bounds m
  have h3 : rnd k % 3 = 0 ∨ rnd k % 3 = 1 ∨ rnd k % 3 = 2 := by omega
  have key : ∀ (v : Nat) (mem0 : List Nat), mem0.length = mem.length → v < 2 ^ 31 →
      toSigned (8 * sizeofInt) (decodeLE (loadBytes (storeInt mem0 (addr_val_type m p) (v : Int))
        (addr_val_type m p) 4)) = (v : Int) := by
    intro v mem0 hl hv
    rw [loadBytes_storeInt_same _ _ _ (by simp only [addr_val_type]; omega)]
    exact toSigned_decodeLE_int v hv
  unfold loadInt
  rw [show sizeofInt = 4 from rfl]
  rcases h3 with h | h | h
  · rw [generate_value _ _ _ _ _ _ h,
      loadBytes_storeLong_of_disjoint _ _ _ _ _ _
        (by simp only [addr_val_type, addr_val_timestamp, off_timestamp_ValueStruct]; omega),
      loadBytes_storeFloat_of_disjoint _ _ _ _ _
        (by simp only [addr_val_type, addr_val_val, off_val_ValueStruct]; omega)]
    have := key 1 (storeInt mem (addr_type p) 1) (length_storeInt _ _ _) (by norm_num)
    rw [show ((rnd k : Int) % 3 + 1) = ((1 : Nat) : Int) by omega]
    exact this
  · rw [generate_mvalue _ _ _ _ _ _ h,
      loadBytes_storeLong_of_disjoint _ _ _ _ _ _
        (by simp only [addr_val_type, addr_mvals_timestamp]; omega),
      loadBytes_mvals_loop_of_disjoint _ _ _ _ _ _ _ _ _
        (by simp only [addr_val_type, addr_mvals_val, off_val_MValueStruct, sizeofFloat]; omega)]
    have := key 2 (storeInt mem (addr_type p) 2) (length_storeInt _ _ _) (by norm_num)
    rw [show ((rnd k : Int) % 3 + 1) = ((2 : Nat) : Int) by omega]
    exact this
  · rw [generate_message _ _ _ _ _ _ h,
      loadBytes_storeChar_of_disjoint _ _ _ _ _
        (by simp only [addr_val_type, addr_messages_message, off_message_MessageStruct,
          sizeofChar]; omega),
      loadBytes_message_loop_of_disjoint _ _ _ _ _ _ _ _
        (by simp only [addr_val_type, addr_messages_message, off_message_MessageStruct,
          sizeofChar]; omega)]
    have := key 3 (storeInt mem (addr_type p) 3) (length_storeInt _ _ _) (by norm_num)
    rw [show ((rnd k : Int) % 3 + 1) = ((3 : Nat) : Int) by omega]
    exact this

/-- A Value record holds the quotient in `val.val`. -/
theorem loadFloat_val_generate (m : DataModel) (RAND_MAX : Nat) (rnd : Nat → Nat)
    (mem : List Nat) (p k : Nat) (hp : p + ExportData.sizeof m ≤ mem.length)
    (h : rnd k % 3 = 0) :
    loadFloat (generate_export_data m RAND_MAX rnd mem p k).1 (addr_val_val m p) =
      randFloat RAND_MAX (rnd (k + 1)) := by
  obtain ⟨b1, b2, b3, b4, b5, b6⟩ := layout_bounds m
  rw [generate_value _ _ _ _ _ _ h]
  unfold loadFloat
  rw [show sizeofFloat = 4 from rfl, loadBytes_storeLong_of_disjoint _ _ _ _ _ _
        (by simp only [addr_val_val, addr_val_timestamp, off_timestamp_ValueStruct,
          off_val_ValueStruct]; omega)]
  exact loadFloat_storeFloat _ _ _ (randFloat_lt _ _)
    (by simp only [length_storeInt, addr_val_val, off_val_ValueStruct]; omega)

/-- A Value record holds the third result of `rand()` in `val.timestamp`. -/
theorem loadLong_val_generate (m : DataModel) (RAND_MAX : Nat) (rnd : Nat → Nat)
    (mem : List Nat) (p k : Nat) (hp : p + ExportData.sizeof m ≤ mem.length)
    (h : rnd k % 3 = 0) (hr : rnd (k + 2) < 2 ^ 31) :
    loadLong m (generate_export_data m RAND_MAX rnd mem p k).1 (addr_val_timestamp m p) =
      (rnd (k + 2) : Int) := by
  obtain ⟨b1, b2, b3, b4, b5, b6⟩ := layout_bounds m
  rw [generate_value _ _ _ _ _ _ h]
  exact loadLong_storeLong _ _ _ _ hr
    (by simp only [length_storeFloat, length_storeInt, addr_val_timestamp,
      off_timestamp_ValueStruct]; omega)

/-- A MultiValue record holds the quotients in `mvals.val[0..9]`. -/
theorem loadFloat_mvals_generate (m : DataModel) (RAND_MAX : Nat) (rnd : Nat → Nat)
    (mem : List Nat) (p k : Nat) (hp : p + ExportData.sizeof m ≤ mem.length)
    (h : rnd k % 3 = 1) (j : Nat) (hj : j < 10) :
    loadFloat (generate_export_data m RAND_MAX rnd mem p k).1 (addr_mvals_val m p j) =
      randFloat RAND_MAX (rnd (k + 1 + j)) := by
  obtain ⟨b1, b2, b3, b4, b5, b6⟩ := layout_bounds m
  rw [generate_mvalue _ _ _ _ _ _ h]
  unfold loadFloat
  rw [show sizeofFloat = 4 from rfl, loadBytes_storeLong_of_disjoint _ _ _ _ _ _
        (by simp only [addr_mvals_val, addr_mvals_timestamp, off_val_MValueStruct,
          sizeofFloat]; omega),
      loadBytes_mvals_loop _ _ _ _ _ _ _ _ hj
        (by simp only [length_storeInt, addr_mvals_val, off_val_MValueStruct, sizeofFloat]
            omega),
      Nat.mod_eq_of_lt (randFloat_lt _ _), decodeLE_encodeLE_of_lt _ _ (by
        have := randFloat_lt RAND_MAX (rnd (k + 1 + j))
        norm_num at this ⊢; omega)]

/-- A MultiValue record holds the twelfth result of `rand()` in `mvals.timestamp`. -/
theorem loadLong_mvals_generate (m : DataModel) (RAND_MAX : Nat) (rnd : Nat → Nat)
    (mem : List Nat) (p k : Nat) (hp : p + ExportData.sizeof m ≤ mem.length)
    (h : rnd k % 3 = 1) (hr : rnd (k + 11) < 2 ^ 31) :
    loadLong m (generate_export_data m RAND_MAX rnd mem p k).1 (addr_mvals_timestamp m p) =
      (rnd (k + 11) : Int) := by
  obtain ⟨b1, b2, b3, b4, b5, b6⟩ := layout_bounds m
  rw [generate_mvalue _ _ _ _ _ _ h]
  exact loadLong_storeLong _ _ _ _ hr
    (by simp only [length_mvals_loop, length_storeInt, addr_mvals_timestamp]; omega)

theorem ofSigned_letter (r : Nat) : ofSigned 8 (97 + (r : Int) % 26) = 97 + r % 26 := by
  unfold ofSigned
  have : (97 + (r : Int) % 26) % 2 ^ 8 = ((97 + r % 26 : Nat) : Int) := by
    push_cast; omega
  rw [this, Int.toNat_natCast]

theorem getElem?_message_generate (m : DataModel) (RAND_MAX : Nat) (rnd : Nat → Nat)
    (mem : List Nat) (p k : Nat) (hp : p + ExportData.sizeof m ≤ mem.length)
    (h : rnd k % 3 = 2) (j : Nat) (hj : j < 21) :
    loadBytes (generate_export_data m RAND_MAX rnd mem p k).1 (addr_messages_message m p j) 1 =
      [if j < 20 then 97 + rnd (k + 1 + j) % 26 else 0] := by
  obtain ⟨b1, b2, b3, b4, b5, b6⟩ := layout_bounds m
  rw [generate_message _ _ _ _ _ _ h]
  by_cases hj2 : j < 20
  · rw [if_pos hj2, loadBytes_storeChar_of_disjoint _ _ _ _ _
        (by simp only [addr_messages_message, sizeofChar]; omega),
      loadBytes_message_loop _ _ _ _ _ _ _ hj2
        (by simp only [length_storeInt, addr_messages_message, off_message_MessageStruct,
          sizeofChar]; omega), ofSigned_letter]
  · have : j = 20 := by omega
    subst this
    rw [if_neg hj2, loadBytes_storeChar_same _ _ _
      (by simp only [length_message_loop, length_storeInt, addr_messages_message,
          off_message_MessageStruct, sizeofChar]; omega)]
    rfl

theorem loadBytes_message_generate (m : DataModel) (RAND_MAX : Nat) (rnd : Nat → Nat)
    (mem : List Nat) (p k : Nat) (hp : p + ExportData.sizeof m ≤ mem.length)
    (h : rnd k % 3 = 2) :
    loadBytes (generate_export_data m RAND_MAX rnd mem p k).1 (addr_messages_message m p 0) 21 =
      message_bytes rnd k := by
  apply List.ext_getElem?
  intro j
  rw [getElem?_loadBytes]
  by_cases hj : j < 21
  · have h1 := getElem?_message_generate m RAND_MAX rnd mem p k hp h j hj
    have h2 := congrArg (fun l => l[0]?) h1
    simp only [getElem?_loadBytes] at h2
    rw [if_pos hj]
    have e : addr_messages_message m p 0 + j = addr_messages_message m p j + 0 := by
      simp only [addr_messages_message, sizeofChar]; omega
    rw [e]
    simp only [Nat.lt_one_iff, if_true] at h2
    rw [h2]
    unfold message_bytes
    by_cases hj2 : j < 20
    · simp [hj2, List.getElem?_append, List.getElem?_range]
    · have : j = 20 := by omega
      subst this
      simp
  · rw [if_neg hj]
    symm
    apply List.getElem?_eq_none
    simp [message_bytes]
    omega

/-! ## The loop of `main` in `main.c` -/

theorem generate_snd (m : DataModel) (RAND_MAX : Nat) (rnd : Nat → Nat) (mem : List Nat)
    (p k : Nat) :
    (generate_export_data m RAND_MAX rnd mem p k).2 =
      k + (if rnd k % 3 = 0 then 3 else if rnd k % 3 = 1 then 12 else 21) := by
  have h3 : rnd k % 3 = 0 ∨ rnd k % 3 = 1 ∨ rnd k % 3 = 2 := by omega
  rcases h3 with h | h | h
  · rw [generate_value _ _ _ _ _ _ h]; simp [h]
  · rw [generate_mvalue _ _ _ _ _ _ h]; simp [h]
  · rw [generate_message _ _ _ _ _ _ h]; simp [h]

theorem generate_loop_succ (m : DataModel) (RAND_MAX : Nat) (rnd : Nat → Nat) (i : Nat)
    (mem : List Nat) :
    generate_loop m RAND_MAX rnd (i + 1) mem =
      generate_export_data m RAND_MAX rnd (generate_loop m RAND_MAX rnd i mem).1
        (addr_elem m 0 i) (generate_loop m RAND_MAX rnd i mem).2 := rfl

theorem generate_loop_snd (m : DataModel) (RAND_MAX : Nat) (rnd : Nat → Nat) (mem : List Nat)
    (n : Nat) : (generate_loop m RAND_MAX rnd n mem).2 = rand_calls rnd n := by
  induction n with
  | zero => rfl
  | succ n ih => rw [generate_loop_succ, generate_snd, ih]; rfl

theorem length_generate_loop (m : DataModel) (RAND_MAX : Nat) (rnd : Nat → Nat)
    (mem : List Nat) (n : Nat) : (generate_loop m RAND_MAX rnd n mem).1.length = mem.length := by
  induction n with
  | zero => rfl
  | succ n ih => rw [generate_loop_succ, length_generate, ih]

/-- Later rounds of the loop leave the records of earlier rounds alone. -/
theorem loadBytes_generate_loop (m : DataModel) (RAND_MAX : Nat) (rnd : Nat → Nat)
    (mem : List Nat) (i n : Nat) (h : i < n) :
    loadBytes (generate_loop m RAND_MAX rnd n mem).1 (addr_elem m 0 i) (ExportData.sizeof m) =
      loadBytes (generate_loop m RAND_MAX rnd (i + 1) mem).1 (addr_elem m 0 i)
        (ExportData.sizeof m) := by
  induction n with
  | zero => omega
  | succ n ih =>
    by_cases hin : i = n
    · subst hin; rfl
    · rw [← ih (by omega), generate_loop_succ]
      apply loadBytes_congr
      intro j h1 h2
      apply getElem?_generate_of_outside
      left
      have : (i + 1) * ExportData.sizeof m ≤ n * ExportData.sizeof m :=
        Nat.mul_le_mul_right _ (by omega)
      simp only [addr_elem] at h1 h2 ⊢
      rw [Nat.add_mul] at this
      omega

/-! ## Writing and reading the file -/

theorem export_all (m : DataModel) (data : List Nat) (n : Nat)
    (h : data.length = n * ExportData.sizeof m) : export_ m data 0 n [] = data := by
  unfold export_ fwrite
  rw [List.nil_append, mul_comm, ← h]
  exact loadBytes_zero_length data

theorem length_export (m : DataModel) (mem : List Nat) (data n : Nat) (pf : List Nat)
    (h : data + n * ExportData.sizeof m ≤ mem.length) :
    (export_ m mem data n pf).length = pf.length + n * ExportData.sizeof m := by
  unfold export_ fwrite
  rw [List.length_append, length_loadBytes, mul_comm]
  omega

theorem sizeof_pos (m : DataModel) : 0 < ExportData.sizeof m := by
  cases m <;> decide

theorem fread_items (buf : List Nat) (s n count : Nat) (pf : List Nat) (hs : 0 < s)
    (h : pf.length = n * s) : (fread buf 0 s count pf).2 = min n count := by
  unfold fread
  show min (s * count) pf.length / s = min n count
  rw [h, mul_comm n s, Nat.mul_min_mul_left, Nat.mul_div_cancel_left _ hs, min_comm]

theorem getElem?_fread (buf : List Nat) (s n count : Nat) (pf : List Nat)
    (h : pf.length = n * s) (hb : buf.length = count * s) (j : Nat)
    (hj : j < min n count * s) : (fread buf 0 s count pf).1[j]? = pf[j]? := by
  have h1 : min n count * s ≤ n * s := Nat.mul_le_mul_right _ (min_le_left _ _)
  have h2 : min n count * s ≤ count * s := Nat.mul_le_mul_right _ (min_le_right _ _)
  unfold fread
  show (storeBytes buf 0 (pf.take (s * count)))[j]? = pf[j]?
  rw [getElem?_storeBytes, if_pos, List.getElem?_take, if_pos]
  · rfl
  · rw [mul_comm]; omega
  · simp only [List.length_take]
    rw [mul_comm s count]
    omega

theorem fread_all (buf : List Nat) (s n : Nat) (pf : List Nat)
    (h : pf.length = n * s) (hb : buf.length = n * s) : (fread buf 0 s n pf).1 = pf := by
  apply List.ext_getElem?
  intro j
  by_cases hj : j < n * s
  · exact getElem?_fread buf s n n pf h hb j (by simpa using hj)
  · rw [List.getElem?_eq_none, List.getElem?_eq_none]
    · omega
    · unfold fread
      show (storeBytes buf 0 (pf.take (s * n))).length ≤ j
      rw [length_storeBytes]; omega

/-! ## Printing -/

theorem message_bytes_eq (rnd : Nat → Nat) (k : Nat) :
    message_bytes rnd k = message_letters rnd k ++ [0] := rfl

theorem print_mvals_eq (m : DataModel) (data : List Nat) (p n : Nat) :
    print_mvals m data p n =
      (List.range n).flatMap (fun j => fmtF (loadFloat data (addr_mvals_val m p j)) ++ [' ']) := by
  induction n with
  | zero => rfl
  | succ n ih =>
    rw [print_mvals, ih, List.range_succ, List.flatMap_append]
    simp

theorem print_loop_eq (m : DataModel) (data : List Nat) (n : Nat) :
    print_loop m data n =
      (List.range n).flatMap (fun i => print_record m data i ++ ['\n']) := by
  induction n with
  | zero => rfl
  | succ n ih =>
    rw [print_loop, ih, List.range_succ, List.flatMap_append]
    simp

theorem loadBytes_of_image (d1 d2 : List Nat) (p s a n : Nat)
    (himg : loadBytes d1 p s = loadBytes d2 p s) (h1 : p ≤ a) (h2 : a + n ≤ p + s) :
    loadBytes d1 a n = loadBytes d2 a n := by
  have e : a = p + (a - p) := by omega
  rw [e, ← loadBytes_loadBytes d1 p s (a - p) n (by omega),
    ← loadBytes_loadBytes d2 p s (a - p) n (by omega), himg]

theorem loadInt_of_image (d1 d2 : List Nat) (p s a : Nat)
    (himg : loadBytes d1 p s = loadBytes d2 p s) (h1 : p ≤ a) (h2 : a + 4 ≤ p + s) :
    loadInt d1 a = loadInt d2 a := by
  unfold loadInt
  rw [show sizeofInt = 4 from rfl, loadBytes_of_image d1 d2 p s a 4 himg h1 h2]

theorem loadFloat_of_image (d1 d2 : List Nat) (p s a : Nat)
    (himg : loadBytes d1 p s = loadBytes d2 p s) (h1 : p ≤ a) (h2 : a + 4 ≤ p + s) :
    loadFloat d1 a = loadFloat d2 a := by
  unfold loadFloat
  rw [show sizeofFloat = 4 from rfl, loadBytes_of_image d1 d2 p s a 4 himg h1 h2]

theorem loadLong_of_image (m : DataModel) (d1 d2 : List Nat) (p s a : Nat)
    (himg : loadBytes d1 p s = loadBytes d2 p s) (h1 : p ≤ a)
    (h2 : a + sizeofLong m ≤ p + s) : loadLong m d1 a = loadLong m d2 a := by
  unfold loadLong
  rw [loadBytes_of_image d1 d2 p s a _ himg h1 h2]

/-- The conversion `%s` stops at the first null byte. -/
theorem fmtS_of_loadBytes (mem : List Nat) (a : Nat) (bs : List Nat)
    (h : loadBytes mem a (bs.length + 1) = bs ++ [0]) (hnz : ∀ b ∈ bs, b ≠ 0) :
    fmtS mem a = bs.map Char.ofNat := by
  have h1 : mem.drop a = (bs ++ [0]) ++ (mem.drop a).drop (bs.length + 1) := by
    rw [← h]; exact (List.take_append_drop _ _).symm
  unfold fmtS
  rw [h1, List.append_assoc, List.takeWhile_append_of_pos (by simpa using hnz)]
  simp

theorem message_letters_ne_zero (rnd : Nat → Nat) (k : Nat) :
    ∀ b ∈ message_letters rnd k, b ≠ 0 := by
  intro b hb
  simp only [message_letters, List.mem_map] at hb
  obtain ⟨j, _, rfl⟩ := hb
  omega

theorem length_message_letters (rnd : Nat → Nat) (k : Nat) :
    (message_letters rnd k).length = 20 := by
  simp [message_letters]

/-- The reader prints a record whose bytes are those of a generated record as
`render_record` says. -/
theorem print_record_generated (m : DataModel) (RAND_MAX : Nat) (rnd : Nat → Nat)
    (d mem : List Nat) (i k : Nat)
    (hp : addr_elem m 0 i + ExportData.sizeof m ≤ mem.length)
    (himg : loadBytes d (addr_elem m 0 i) (ExportData.sizeof m) =
      loadBytes (generate_export_data m RAND_MAX rnd mem (addr_elem m 0 i) k).1
        (addr_elem m 0 i) (ExportData.sizeof m))
    (hr : rnd k % 3 = 2 ∨ ∀ j, rnd j < 2 ^ 31) :
    print_record m d i = render_record RAND_MAX rnd k := by
  obtain ⟨b1, b2, b3, b4, b5, b6⟩ := layout_bounds m
  have ht : loadInt d (addr_type (addr_elem m 0 i)) = (rnd k : Int) % 3 + 1 := by
    rw [loadInt_of_image _ _ _ _ _ himg (by simp only [addr_type]; omega)
      (by simp only [addr_type]; omega)]
    exact loadInt_type_generate m RAND_MAX rnd mem _ k hp
  have h3 : rnd k % 3 = 0 ∨ rnd k % 3 = 1 ∨ rnd k % 3 = 2 := by omega
  unfold print_record render_record
  simp only [ht, TYPE_VALUE, TYPE_MVALUE, TYPE_MESSAGE]
  rcases h3 with h | h | h
  · have hz : (rnd k : Int) % 3 = 0 := by omega
    rw [if_pos (by omega), if_pos h,
      loadFloat_of_image _ _ _ _ _ himg
        (by simp only [addr_val_val]; omega)
        (by simp only [addr_val_val, off_val_ValueStruct]; omega),
      loadFloat_val_generate m RAND_MAX rnd mem _ k hp h,
      loadLong_of_image m _ _ _ _ _ himg
        (by simp only [addr_val_timestamp]; omega)
        (by simp only [addr_val_timestamp, off_timestamp_ValueStruct]; omega),
      loadLong_val_generate m RAND_MAX rnd mem _ k hp h
        ((hr.resolve_left (by omega)) _)]
  · have hz : (rnd k : Int) % 3 = 1 := by omega
    rw [if_neg (by omega), if_pos (by omega), if_neg (by omega), if_pos h, print_mvals_eq,
      loadLong_of_image m _ _ _ _ _ himg
        (by simp only [addr_mvals_timestamp]; omega)
        (by simp only [addr_mvals_timestamp]; omega),
      loadLong_mvals_generate m RAND_MAX rnd mem _ k hp h
        ((hr.resolve_left (by omega)) _)]
    have hv : (List.range 10).flatMap
          (fun j => fmtF (loadFloat d (addr_mvals_val m (addr_elem m 0 i) j)) ++ [' ']) =
        (List.range 10).flatMap
          (fun j => fmtF (randFloat RAND_MAX (rnd (k + 1 + j))) ++ [' ']) := by
      apply List.flatMap_congr
      intro j hj
      have hj10 : j < 10 := List.mem_range.1 hj
      rw [loadFloat_of_image _ _ _ _ _ himg
          (by simp only [addr_mvals_val]; omega)
          (by simp only [addr_mvals_val, off_val_MValueStruct, sizeofFloat]; omega),
        loadFloat_mvals_generate m RAND_MAX rnd mem _ k hp h j hj10]
    rw [hv]
  · have hz : (rnd k : Int) % 3 = 2 := by omega
    rw [if_neg (by omega), if_neg (by omega), if_pos (by omega), if_neg (by omega),
      if_neg (by omega)]
    have hs : fmtS d (addr_messages_message m (addr_elem m 0 i) 0) =
        (message_letters rnd k).map Char.ofNat := by
      apply fmtS_of_loadBytes
      · rw [length_message_letters, ← message_bytes_eq,
          loadBytes_of_image _ _ _ _ _ _ himg
            (by simp only [addr_messages_message]; omega)
            (by simp only [addr_messages_message, off_message_MessageStruct, sizeofChar]
                omega)]
        exact loadBytes_message_generate m RAND_MAX rnd mem _ k hp h
      · exact message_letters_ne_zero rnd k
    rw [hs]

/-! ## No conversion prints a newline -/

theorem digitChar_ne_newline (d : Nat) (h : d < 10) : Nat.digitChar d ≠ '\n' := by
  interval_cases d <;> decide

theorem toDigitsCore_no_newline (fuel : Nat) : ∀ (n : Nat) (ds : List Char),
    '\n' ∉ ds → '\n' ∉ Nat.toDigitsCore 10 fuel n ds := by
  induction fuel with
  | zero => intro n ds h; exact h
  | succ fuel ih =>
    intro n ds h
    have hd : '\n' ∉ Nat.digitChar (n % 10) :: ds := by
      intro hc
      rcases List.mem_cons.1 hc with hc | hc
      · exact digitChar_ne_newline (n % 10) (Nat.mod_lt _ (by norm_num)) hc.symm
      · exact h hc
    unfold Nat.toDigitsCore
    simp only
    split
    · exact hd
    · exact ih _ _ hd

theorem fmtNat_no_newline (n : Nat) : '\n' ∉ fmtNat n :=
  toDigitsCore_no_newline _ _ _ (List.not_mem_nil _)

theorem fmtLd_no_newline (v : Int) : '\n' ∉ fmtLd v := by
  unfold fmtLd
  split
  · intro hc
    rcases List.mem_cons.1 hc with hc | hc
    · exact absurd hc (by decide)
    · exact fmtNat_no_newline _ hc
  · exact fmtNat_no_newline _

theorem fmtF_no_newline (bits : Nat) : '\n' ∉ fmtF bits := by
  have hs : '\n' ∉ (if f32Sign bits = 1 then ['-'] else ([] : List Char)) := by
    split <;> decide
  unfold fmtF
  simp only
  split
  · intro hc
    rcases List.mem_append.1 hc with hc | hc
    · exact hs hc
    · revert hc
      split <;> decide
  · intro hc
    simp only [List.mem_append, List.mem_replicate, List.mem_singleton] at hc
    rcases hc with (((hc | hc) | hc) | hc) | hc
    · exact hs hc
    · exact fmtNat_no_newline _ hc
    · exact absurd hc (by decide)
    · exact absurd hc.2 (by decide)
    · exact fmtNat_no_newline _ hc

theorem letter_isAlpha (x : Nat) (h : x < 26) : (Char.ofNat (97 + x)).isAlpha = true := by
  interval_cases x <;> decide

theorem letter_isLower (x : Nat) (h : x < 26) : (Char.ofNat (97 + x)).isLower = true := by
  interval_cases x <;> decide

theorem letter_ne_newline (x : Nat) (h : x < 26) : Char.ofNat (97 + x) ≠ '\n' := by
  interval_cases x <;> decide

theorem render_record_no_newline (RAND_MAX : Nat) (rnd : Nat → Nat) (k : Nat) :
    '\n' ∉ render_record RAND_MAX rnd k := by
  unfold render_record
  split
  · intro hc
    simp only [List.mem_append] at hc
    rcases hc with ((hc | hc) | hc) | hc
    · exact absurd hc (by decide)
    · exact fmtF_no_newline _ hc
    · exact absurd hc (by decide)
    · exact fmtLd_no_newline _ hc
  · split
    · intro hc
      simp only [List.mem_append, List.mem_flatMap, List.mem_singleton] at hc
      rcases hc with ((hc | ⟨j, _, hc | hc⟩) | hc) | hc
      · exact absurd hc (by decide)
      · exact fmtF_no_newline _ hc
      · exact absurd hc (by decide)
      · exact absurd hc (by decide)
      · exact fmtLd_no_newline _ hc
    · intro hc
      simp only [List.mem_append, List.mem_map, message_letters] at hc
      rcases hc with hc | ⟨b, ⟨j, _, rfl⟩, hc⟩
      · exact absurd hc (by decide)
      · exact letter_ne_newline _ (Nat.mod_lt _ (by norm_num)) hc

theorem count_newline_lines (f : Nat → List Char) (h : ∀ i, '\n' ∉ f i) (n : Nat) :
    ((List.range n).flatMap (fun i => f i ++ ['\n'])).count '\n' = n := by
  induction n with
  | zero => rfl
  | succ n ih =>
    rw [List.range_succ, List.flatMap_append, List.count_append, ih]
    simp [List.count_eq_zero_of_not_mem (h n)]

theorem loadChar_of_image (d1 d2 : List Nat) (p s a : Nat)
    (himg : loadBytes d1 p s = loadBytes d2 p s) (h1 : p ≤ a) (h2 : a + 1 ≤ p + s) :
    loadChar d1 a = loadChar d2 a := by
  unfold loadChar
  rw [show sizeofChar = 1 from rfl, loadBytes_of_image d1 d2 p s a 1 himg h1 h2]

theorem loadChar_of_loadBytes (mem : List Nat) (a b : Nat) (h : loadBytes mem a 1 = [b]) :
    loadChar mem a = b := by
  unfold loadChar
  rw [show sizeofChar = 1 from rfl, h]
  simp [decodeLE]

/-! ## From `main.c` to `read_out.c` -/

theorem main_file (m : DataModel) (RAND_MAX : Nat) (rnd : Nat → Nat) (dataW : List Nat)
    (hW : dataW.length = 100 * ExportData.sizeof m) :
    (MainC.main m RAND_MAX rnd dataW).1 = (generate_loop m RAND_MAX rnd 100 dataW).1 := by
  unfold MainC.main
  exact export_all m _ 100 (by rw [length_generate_loop, hW])

theorem fread_main_file (m : DataModel) (RAND_MAX : Nat) (rnd : Nat → Nat)
    (dataW dataR : List Nat) (hW : dataW.length = 100 * ExportData.sizeof m)
    (hR : dataR.length = 100 * ExportData.sizeof m) :
    (fread dataR 0 (ExportData.sizeof m) 100 (MainC.main m RAND_MAX rnd dataW).1).1 =
      (generate_loop m RAND_MAX rnd 100 dataW).1 := by
  rw [main_file m RAND_MAX rnd dataW hW]
  exact fread_all dataR _ 100 _ (by rw [length_generate_loop, hW]) hR

theorem elem_fits (m : DataModel) (i n : Nat) (h : i < n) :
    addr_elem m 0 i + ExportData.sizeof m ≤ n * ExportData.sizeof m := by
  have : (i + 1) * ExportData.sizeof m ≤ n * ExportData.sizeof m :=
    Nat.mul_le_mul_right _ (by omega)
  rw [Nat.add_mul] at this
  simp only [addr_elem]
  omega

/-- Record `i` of the finished array is the record that call `i` of
`generate_export_data` produced, from call `rand_calls rnd i` of `rand()` on. -/
theorem image_generate_loop (m : DataModel) (RAND_MAX : Nat) (rnd : Nat → Nat)
    (dataW : List Nat) (i n : Nat) (h : i < n) :
    loadBytes (generate_loop m RAND_MAX rnd n dataW).1 (addr_elem m 0 i) (ExportData.sizeof m) =
      loadBytes (generate_export_data m RAND_MAX rnd (generate_loop m RAND_MAX rnd i dataW).1
        (addr_elem m 0 i) (rand_calls rnd i)).1 (addr_elem m 0 i) (ExportData.sizeof m) := by
  rw [loadBytes_generate_loop m RAND_MAX rnd dataW i n h, generate_loop_succ, generate_loop_snd]

theorem loadInt_type_generate_loop (m : DataModel) (RAND_MAX : Nat) (rnd : Nat → Nat)
    (dataW : List Nat) (i n : Nat) (h : i < n)
    (hW : dataW.length = n * ExportData.sizeof m) :
    loadInt (generate_loop m RAND_MAX rnd n dataW).1 (addr_type (addr_elem m 0 i)) =
      (rnd (rand_calls rnd i) : Int) % 3 + 1 := by
  obtain ⟨b1, b2, b3, b4, b5, b6⟩ := layout_bounds m
  rw [loadInt_of_image _ _ _ _ _ (image_generate_loop m RAND_MAX rnd dataW i n h)
    (by simp only [addr_type]; omega) (by simp only [addr_type]; omega)]
  exact loadInt_type_generate m RAND_MAX rnd _ _ _
    (by rw [length_generate_loop, hW]; exact elem_fits m i n h)

/-! ## The quotient of two converted integers is at most one -/

theorem rne_mono (n1 n2 d : Nat) (h : n1 ≤ n2) : rne n1 d ≤ rne n2 d := by
  rcases Nat.eq_zero_or_pos d with hd | hd
  · subst hd; simp [rne]; split_ifs <;> omega
  have hq : n1 / d ≤ n2 / d := Nat.div_le_div_right h
  rcases Nat.lt_or_ge (n1 / d) (n2 / d) with hlt | hge
  · have := rne_le_div_succ n1 d
    have := div_le_rne n2 d
    omega
  · have heq : n1 / d = n2 / d := le_antisymm hq hge
    have e1 := Nat.div_add_mod n1 d
    have e2 := Nat.div_add_mod n2 d
    rw [heq] at e1
    have hr : n1 % d ≤ n2 % d := by
      generalize d * (n2 / d) = x at e1 e2
      omega
    unfold rne
    rw [heq]
    split_ifs <;> omega

theorem rne_le_of_le (n d b : Nat) (hd : 0 < d) (h : n ≤ d * b) : rne n d ≤ b := by
  have := rne_mono n (d * b) d h
  have h2 : rne (d * b) d = b := by
    unfold rne
    rw [Nat.mul_mod_right, Nat.mul_div_cancel_left _ hd]
    simp [hd]
  omega

theorem f32Binade_ge (N d : Nat) (K j : Nat) (hj : j ≤ K) (h : d * 2 ^ (j + 23) ≤ N) :
    j ≤ f32Binade N d K := by
  induction K with
  | zero => omega
  | succ K ih =>
    rw [f32Binade_succ]
    split
    · exact hj
    · next hc =>
      rcases Nat.lt_or_ge j (K + 1) with hlt | hge
      · exact ih (by omega)
      · have : j = K + 1 := by omega
        subst this
        exact absurd h hc

theorem f32Binade_mono (N1 N2 d : Nat) (K : Nat) (h : N1 ≤ N2) :
    f32Binade N1 d K ≤ f32Binade N2 d K := by
  induction K with
  | zero => exact le_rfl
  | succ K ih =>
    rw [f32Binade_succ, f32Binade_succ]
    by_cases h1 : d * 2 ^ (K + 24) ≤ N1
    · rw [if_pos h1, if_pos (le_trans h1 h)]
    · rw [if_neg h1]
      have := f32Binade_le N1 d K
      split
      · omega
      · exact ih

theorem f32Binade_lt (N d : Nat) (K j : Nat) (h : N < d * 2 ^ (j + 23)) (hj : 0 < j) :
    f32Binade N d K < j := by
  by_contra hc
  have hpos : 0 < f32Binade N d K := by omega
  have hl := f32Binade_lower N d K hpos
  have : d * 2 ^ (j + 23) ≤ d * 2 ^ (f32Binade N d K + 23) :=
    Nat.mul_le_mul_left _ (Nat.pow_le_pow_right (by norm_num) (by omega))
  omega

/-- The pattern `k * 2 ^ 23 + s` with a significand `s` between `2 ^ 23` and `2 ^ 24`
is a positive finite float of magnitude `s * 2 ^ (k + 1)`. -/
theorem f32_of_binade (k s : Nat) (hs1 : 2 ^ 23 ≤ s) (hs2 : s ≤ 2 ^ 24) (hk : k + 2 ≤ 254) :
    f32Mag (k * 2 ^ 23 + s) = s * 2 ^ (k + 1) ∧ f32Sign (k * 2 ^ 23 + s) = 0 ∧
    f32Exp (k * 2 ^ 23 + s) ≠ 255 ∧ f32Exp (k * 2 ^ 23 + s) ≠ 0 := by
  norm_num at hs1 hs2
  rcases Nat.lt_or_ge s (2 ^ 24) with hlt | hge
  · norm_num at hlt
    have he : f32Exp (k * 2 ^ 23 + s) = k + 1 := by
      unfold f32Exp; norm_num; omega
    have hf : f32Frac (k * 2 ^ 23 + s) + 2 ^ 23 = s := by
      unfold f32Frac; norm_num; omega
    refine ⟨?_, ?_, ?_, ?_⟩
    · unfold f32Mag
      rw [he, if_neg (by omega), hf]
    · unfold f32Sign; norm_num; omega
    · omega
    · omega
  · norm_num at hge
    have hs : s = 2 ^ 24 := by norm_num; omega
    have he : f32Exp (k * 2 ^ 23 + s) = k + 2 := by
      unfold f32Exp; norm_num; omega
    have hf : f32Frac (k * 2 ^ 23 + s) = 0 := by
      unfold f32Frac; norm_num; omega
    refine ⟨?_, ?_, ?_, ?_⟩
    · unfold f32Mag
      rw [he, if_neg (by omega), hf, hs, Nat.zero_add, pow_succ 2 (k + 1)]
      ring
    · unfold f32Sign; norm_num; omega
    · omega
    · omega

set_option exponentiation.threshold 512 in
/-- The conversion `(float)n` of a positive `int`: its binade and its significand. -/
theorem f32OfNat_spec (n : Nat) (h1 : 0 < n) (h2 : n < 2 ^ 31) :
    f32OfNat n = f32Binade (n * 2 ^ 149) 1 253 * 2 ^ 23 +
        rne (n * 2 ^ 149) (1 * 2 ^ f32Binade (n * 2 ^ 149) 1 253) ∧
    126 ≤ f32Binade (n * 2 ^ 149) 1 253 ∧ f32Binade (n * 2 ^ 149) 1 253 ≤ 156 ∧
    2 ^ 23 ≤ rne (n * 2 ^ 149) (1 * 2 ^ f32Binade (n * 2 ^ 149) 1 253) ∧
    rne (n * 2 ^ 149) (1 * 2 ^ f32Binade (n * 2 ^ 149) 1 253) ≤ 2 ^ 24 := by
  have hN1 : 1 * 2 ^ (126 + 23) ≤ n * 2 ^ 149 := Nat.mul_le_mul_right _ h1
  have hN2 : n * 2 ^ 149 < 1 * 2 ^ (157 + 23) := by
    have : n * 2 ^ 149 < 2 ^ 31 * 2 ^ 149 := Nat.mul_lt_mul_of_pos_right h2 (by positivity)
    rw [← pow_add] at this
    rw [Nat.one_mul]
    exact this
  have hN3 : n * 2 ^ 149 < 1 * 2 ^ (253 + 24) :=
    lt_of_lt_of_le hN2 (Nat.mul_le_mul_left _ (Nat.pow_le_pow_right (by norm_num) (by norm_num)))
  have hk1 := f32Binade_ge (n * 2 ^ 149) 1 253 126 (by norm_num) hN1
  have hk2 := f32Binade_lt (n * 2 ^ 149) 1 253 157 hN2 (by norm_num)
  have hlow := f32Binade_lower (n * 2 ^ 149) 1 253 (by omega)
  have hup := f32Binade_upper (n * 2 ^ 149) 1 253 hN3
  refine ⟨?_, hk1, by omega, ?_, ?_⟩
  · unfold f32OfNat
    rw [if_neg (by omega)]
    unfold f32RoundPos
    rw [if_neg (by
      have : (253 + 24 : Nat) = 277 := rfl
      rw [this] at hN3
      omega)]
  · apply le_rne_of_le _ _ _ (by positivity)
    rw [mul_assoc, ← pow_add]
    exact hlow
  · apply rne_le_of_lt
    rw [mul_assoc, ← pow_add]
    exact hup

theorem f32Mag_f32OfNat (n : Nat) (h1 : 0 < n) (h2 : n < 2 ^ 31) :
    f32Mag (f32OfNat n) =
        rne (n * 2 ^ 149) (1 * 2 ^ f32Binade (n * 2 ^ 149) 1 253) *
          2 ^ (f32Binade (n * 2 ^ 149) 1 253 + 1) ∧
    f32Sign (f32OfNat n) = 0 ∧ f32Exp (f32OfNat n) ≠ 255 ∧ f32Exp (f32OfNat n) ≠ 0 := by
  obtain ⟨e, k1, k2, s1, s2⟩ := f32OfNat_spec n h1 h2
  rw [e]
  exact f32_of_binade _ _ s1 s2 (by omega)

/-- The conversion `(float)n` keeps the order of the positive `int` values. -/
theorem f32Mag_f32OfNat_mono (r R : Nat) (h1 : 0 < r) (h2 : r ≤ R) (h3 : R < 2 ^ 31) :
    f32Mag (f32OfNat r) ≤ f32Mag (f32OfNat R) ∧ 0 < f32Mag (f32OfNat r) := by
  obtain ⟨_, _, _, s1, s2⟩ := f32OfNat_spec r h1 (by omega)
  obtain ⟨_, _, _, t1, t2⟩ := f32OfNat_spec R (by omega) h3
  rw [(f32Mag_f32OfNat r h1 (by omega)).1, (f32Mag_f32OfNat R (by omega) h3).1]
  have hN : r * 2 ^ 149 ≤ R * 2 ^ 149 := Nat.mul_le_mul_right _ h2
  have hk := f32Binade_mono (r * 2 ^ 149) (R * 2 ^ 149) 1 253 hN
  refine ⟨?_, Nat.mul_pos (by omega) (by positivity)⟩
  generalize f32Binade (r * 2 ^ 149) 1 253 = a at hk s1 s2 ⊢
  generalize f32Binade (R * 2 ^ 149) 1 253 = b at hk t1 t2 ⊢
  rcases Nat.lt_or_ge a b with hlt | hge
  · calc rne (r * 2 ^ 149) (1 * 2 ^ a) * 2 ^ (a + 1)
        ≤ 2 ^ 24 * 2 ^ (a + 1) := Nat.mul_le_mul_right _ s2
      _ = 2 ^ 23 * 2 ^ (a + 2) := by rw [← pow_add, ← pow_add]; congr 1; omega
      _ ≤ 2 ^ 23 * 2 ^ (b + 1) :=
          Nat.mul_le_mul_left _ (Nat.pow_le_pow_right (by norm_num) (by omega))
      _ ≤ rne (R * 2 ^ 149) (1 * 2 ^ b) * 2 ^ (b + 1) := Nat.mul_le_mul_right _ t1
  · have hab : a = b := le_antisymm hk hge
    subst hab
    exact Nat.mul_le_mul_right _ (rne_mono _ _ _ hN)

set_option exponentiation.threshold 512 in
/-- Rounding a positive quotient that is at most one gives at most `1.0f`. -/
theorem f32RoundPos_le_one (n d : Nat) (h1 : 0 < n) (h2 : n ≤ d) :
    f32RoundPos n d ≤ 0x3F800000 := by
  have hN : n * 2 ^ 149 ≤ d * 2 ^ 149 := Nat.mul_le_mul_right _ h2
  have hd : d * 2 ^ 149 < d * 2 ^ (127 + 23) :=
    Nat.mul_lt_mul_of_pos_left (Nat.pow_lt_pow_right (by norm_num) (by norm_num)) (by omega)
  have hd2 : d * 2 ^ (127 + 23) ≤ d * 2 ^ (253 + 24) :=
    Nat.mul_le_mul_left _ (Nat.pow_le_pow_right (by norm_num) (by norm_num))
  have hk := f32Binade_lt (n * 2 ^ 149) d 253 127 (by omega) (by norm_num)
  have hup := f32Binade_upper (n * 2 ^ 149) d 253 (by omega)
  unfold f32RoundPos
  rw [if_neg (by
    have : (253 + 24 : Nat) = 277 := rfl
    rw [this] at hd2
    omega)]
  simp only
  generalize f32Binade (n * 2 ^ 149) d 253 = k at hk hup ⊢
  rcases Nat.lt_or_ge k 126 with hlt | hge
  · have hs : rne (n * 2 ^ 149) (d * 2 ^ k) ≤ 2 ^ 24 := by
      apply rne_le_of_lt
      rw [mul_assoc, ← pow_add]
      exact hup
    norm_num at hs ⊢
    omega
  · have hk126 : k = 126 := by omega
    subst hk126
    have hs : rne (n * 2 ^ 149) (d * 2 ^ 126) ≤ 2 ^ 23 := by
      apply rne_le_of_le _ _ _ (Nat.mul_pos (by omega) (by positivity))
      rw [mul_assoc, ← pow_add]
      exact hN
    norm_num at hs ⊢
    omega

/-- The float that `generate_export_data` stores is at most `1.0f`, as a pattern. -/
theorem randFloat_le_one (RAND_MAX r : Nat) (hR : 0 < RAND_MAX) (hR2 : RAND_MAX < 2 ^ 31)
    (hr : r ≤ RAND_MAX) : randFloat RAND_MAX r ≤ 0x3F800000 := by
  obtain ⟨_, bs, be1, be2⟩ := f32Mag_f32OfNat RAND_MAX hR hR2
  unfold randFloat
  rcases Nat.eq_zero_or_pos r with h0 | hpos
  · subst h0
    have hz : f32OfNat 0 = 0 := rfl
    have z1 : f32Exp 0 = 0 := rfl
    have z2 : f32Frac 0 = 0 := rfl
    have z3 : f32Sign 0 = 0 := rfl
    rw [hz]
    unfold f32Div
    simp [f32IsNaN, f32IsInf, f32IsZero, be1, be2, bs, z1, z2, z3]
  · obtain ⟨hm, hp⟩ := f32Mag_f32OfNat_mono r RAND_MAX hpos hr hR2
    obtain ⟨_, as, ae1, ae2⟩ := f32Mag_f32OfNat r hpos (by omega)
    have := f32RoundPos_le_one _ _ hp hm
    unfold f32Div
    simp only [f32IsNaN, f32IsInf, f32IsZero, be1, be2, bs, as, ae1, ae2]
    simpa using this

/-- A pattern up to that of `1.0f` is a float between 0 and 1. -/
theorem f32ToRat_le_one (bits : Nat) (h : bits ≤ 0x3F800000) :
    0 ≤ f32ToRat bits ∧ f32ToRat bits ≤ 1 := by
  have hs : f32Sign bits = 0 := by unfold f32Sign; norm_num; omega
  have he : f32Exp bits ≤ 127 := by unfold f32Exp; norm_num; omega
  have hf : f32Frac bits < 2 ^ 23 := by unfold f32Frac; exact Nat.mod_lt _ (by norm_num)
  have hm : f32Mag bits ≤ 2 ^ 150 := by
    unfold f32Mag
    split
    · calc f32Frac bits * 2 ^ 1 ≤ 2 ^ 23 * 2 ^ 1 := Nat.mul_le_mul_right _ (le_of_lt hf)
        _ ≤ 2 ^ 150 := by norm_num
    · rcases Nat.lt_or_ge (f32Exp bits) 127 with hlt | hge
      · calc (f32Frac bits + 2 ^ 23) * 2 ^ f32Exp bits
            ≤ 2 ^ 24 * 2 ^ f32Exp bits := Nat.mul_le_mul_right _ (by norm_num at hf ⊢; omega)
          _ ≤ 2 ^ 24 * 2 ^ 126 :=
              Nat.mul_le_mul_left _ (Nat.pow_le_pow_right (by norm_num) (by omega))
          _ = 2 ^ 150 := by norm_num
      · have he2 : f32Exp bits = 127 := by omega
        have hf0 : f32Frac bits = 0 := by
          unfold f32Exp at he2
          unfold f32Frac
          norm_num at he2 ⊢
          omega
        rw [he2, hf0]
        norm_num
  unfold f32ToRat
  rw [hs, if_neg (by norm_num), one_mul]
  constructor
  · positivity
  · rw [div_le_one (by positivity)]
    exact_mod_cast hm

theorem loadBytes_replicate (N a n b : Nat) (h : a + n ≤ N) :
    loadBytes (List.replicate N b) a n = List.replicate n b := by
  unfold loadBytes
  rw [List.drop_replicate, List.take_replicate, min_eq_left (by omega)]

theorem print_record_unknown (m : DataModel) (data : List Nat) (i : Nat)
    (h1 : loadInt data (addr_type (addr_elem m 0 i)) ≠ TYPE_VALUE)
    (h2 : loadInt data (addr_type (addr_elem m 0 i)) ≠ TYPE_MVALUE)
    (h3 : loadInt data (addr_type (addr_elem m 0 i)) ≠ TYPE_MESSAGE) :
    print_record m data i = [] := by
  unfold print_record
  simp only
  rw [if_neg h1, if_neg h2, if_neg h3]

theorem print_loop_zero_bytes (m : DataModel) (N n : Nat) (h : n * ExportData.sizeof m ≤ N) :
    print_loop m (List.replicate N 0) n = List.replicate n '\n' := by
  induction n with
  | zero => rfl
  | succ n ih =>
    have hfit := elem_fits m n (n + 1) (by omega)
    obtain ⟨b1, b2, b3, b4, b5, b6⟩ := layout_bounds m
    have ht : loadInt (List.replicate N 0) (addr_type (addr_elem m 0 n)) = 0 := by
      unfold loadInt
      rw [show sizeofInt = 4 from rfl,
        loadBytes_replicate _ _ _ _ (by simp only [addr_type]; omega)]
      decide
    rw [print_loop, ih (by rw [Nat.add_mul] at h; omega),
      print_record_unknown m _ n (by rw [ht]; decide) (by rw [ht]; decide)
        (by rw [ht]; decide), List.nil_append, List.replicate_succ']

theorem rne_mul_left (d b : Nat) (hd : 0 < d) : rne (d * b) d = b := by
  unfold rne
  rw [Nat.mul_mod_right, Nat.mul_div_cancel_left _ hd]
  simp [hd]

set_option exponentiation.threshold 512 in
/-- A positive quotient of equal terms rounds to `1.0f`. -/
theorem f32RoundPos_self (n : Nat) (h : 0 < n) : f32RoundPos n n = 0x3F800000 := by
  have h1 : n * 2 ^ 149 < n * 2 ^ (127 + 23) :=
    Nat.mul_lt_mul_of_pos_left (Nat.pow_lt_pow_right (by norm_num) (by norm_num)) h
  have h2 : n * 2 ^ (127 + 23) ≤ n * 2 ^ 277 :=
    Nat.mul_le_mul_left _ (Nat.pow_le_pow_right (by norm_num) (by norm_num))
  have hk1 := f32Binade_ge (n * 2 ^ 149) n 253 126 (by norm_num) le_rfl
  have hk2 := f32Binade_lt (n * 2 ^ 149) n 253 127 h1 (by norm_num)
  have hk : f32Binade (n * 2 ^ 149) n 253 = 126 := by omega
  unfold f32RoundPos
  rw [if_neg (by omega)]
  simp only
  rw [hk, show n * 2 ^ 149 = n * 2 ^ 126 * 2 ^ 23 by rw [mul_assoc, ← pow_add],
    rne_mul_left _ _ (Nat.mul_pos h (by positivity))]
  norm_num

/-- At `rand() == RAND_MAX` the float that `generate_export_data` stores is `1.0f`. -/
theorem randFloat_self (RAND_MAX : Nat) (hR : 0 < RAND_MAX) (hR2 : RAND_MAX < 2 ^ 31) :
    randFloat RAND_MAX RAND_MAX = 0x3F800000 := by
  obtain ⟨_, bs, be1, be2⟩ := f32Mag_f32OfNat RAND_MAX hR hR2
  obtain ⟨_, hp⟩ := f32Mag_f32OfNat_mono RAND_MAX RAND_MAX hR le_rfl hR2
  have := f32RoundPos_self _ hp
  unfold randFloat f32Div
  simp only [f32IsNaN, f32IsInf, f32IsZero, be1, be2, bs]
  simpa using this

theorem f32ToRat_one : f32ToRat 0x3F800000 = 1 := by
  norm_num [f32ToRat, f32Mag, f32Sign, f32Exp, f32Frac]

theorem randQuotient_bounds (RAND_MAX r : Nat) (hR : 0 < RAND_MAX) (hr : r ≤ RAND_MAX) :
    0 ≤ randQuotient RAND_MAX r ∧ randQuotient RAND_MAX r ≤ 1 ∧
    (randQuotient RAND_MAX r = 1 ↔ r = RAND_MAX) := by
  have hRq : (0 : ℚ) < (RAND_MAX : ℚ) := by exact_mod_cast hR
  unfold randQuotient
  refine ⟨by positivity, ?_, ?_⟩
  · rw [div_le_one hRq]; exact_mod_cast hr
  · rw [div_eq_one_iff_eq (ne_of_gt hRq)]; exact_mod_cast Iff.rfl

theorem getElem?_export_one (m : DataModel) (mem : List Nat) (p j : Nat)
    (hj : j < ExportData.sizeof m) : (export_ m mem p 1 [])[j]? = mem[p + j]? := by
  unfold export_ fwrite
  rw [List.nil_append, getElem?_loadBytes, Nat.mul_one, if_pos hj]

/-! ## Reading the printed numbers back -/

theorem digitChar_isDigit (d : Nat) (h : d < 10) : (Nat.digitChar d).isDigit = true := by
  interval_cases d <;> decide

theorem digitChar_toNat (d : Nat) (h : d < 10) : (Nat.digitChar d).toNat - 48 = d := by
  interval_cases d <;> decide

theorem digitChar_ne_zero (d : Nat) (h0 : 0 < d) (h : d < 10) : Nat.digitChar d ≠ '0' := by
  interval_cases d <;> decide

theorem isDigit_ne_point (c : Char) (h : c.isDigit = true) : (c != '.') = true := by
  rw [bne_iff_ne]
  rintro rfl
  exact absurd h (by decide)

theorem readNat_append_singleton (a : List Char) (c : Char) :
    readNat (a ++ [c]) = 10 * readNat a + (c.toNat - 48) := by
  simp [readNat, List.foldl_append]

theorem readNat_append (b : List Char) : ∀ a : List Char,
    readNat (a ++ b) = readNat a * 10 ^ b.length + readNat b := by
  induction b with
  | nil => intro a; simp [readNat]
  | cons c b ih =>
    intro a
    have h1 : a ++ c :: b = (a ++ [c]) ++ b := by simp
    have h2 : readNat (c :: b) = (c.toNat - 48) * 10 ^ b.length + readNat b := by
      have := ih [c]
      rw [List.singleton_append] at this
      rw [this]
      simp [readNat]
    rw [h1, ih, readNat_append_singleton, h2, List.length_cons, pow_succ]
    ring

theorem readNat_replicate_zero (k : Nat) : readNat (List.replicate k '0') = 0 := by
  induction k with
  | zero => rfl
  | succ k ih => rw [List.replicate_succ', readNat_append_singleton, ih]; rfl

/-- The digits that `Nat.toDigitsCore` puts in front of its accumulator. -/
theorem toDigitsCore_spec (fuel : Nat) : ∀ (n : Nat) (ds : List Char), n < fuel →
    ∃ pre : List Char, Nat.toDigitsCore 10 fuel n ds = pre ++ ds ∧ pre ≠ [] ∧
      (∀ c ∈ pre, c.isDigit = true) ∧ readNat pre = n ∧
      (0 < n → pre.head? ≠ some '0') ∧ (pre.length = 1 ∨ 10 ^ (pre.length - 1) ≤ n) := by
  induction fuel with
  | zero => intro n ds h; omega
  | succ fuel ih =>
    intro n ds h
    unfold Nat.toDigitsCore
    simp only
    split
    · next h0 =>
      have hn : n % 10 = n := by omega
      have hlt : n < 10 := by omega
      refine ⟨[Nat.digitChar (n % 10)], rfl, by simp, ?_, ?_, ?_, Or.inl rfl⟩
      · intro c hc
        rw [List.mem_singleton] at hc
        rw [hc]
        exact digitChar_isDigit _ (Nat.mod_lt _ (by norm_num))
      · rw [hn]
        show 10 * 0 + ((Nat.digitChar n).toNat - 48) = n
        rw [digitChar_toNat n hlt]; omega
      · intro hpos
        rw [hn]
        simp only [List.head?_cons, ne_eq, Option.some.injEq]
        exact digitChar_ne_zero n hpos hlt
    · next h0 =>
      obtain ⟨pre, e, hne, hd, hr, hh, hl⟩ :=
        ih (n / 10) (Nat.digitChar (n % 10) :: ds) (by omega)
      refine ⟨pre ++ [Nat.digitChar (n % 10)], by rw [e]; simp, by simp, ?_, ?_, ?_, ?_⟩
      · intro c hc
        rcases List.mem_append.1 hc with hc | hc
        · exact hd c hc
        · rw [List.mem_singleton] at hc
          rw [hc]
          exact digitChar_isDigit _ (Nat.mod_lt _ (by norm_num))
      · rw [readNat_append_singleton, hr, digitChar_toNat _ (Nat.mod_lt _ (by norm_num))]
        omega
      · intro _
        cases pre with
        | nil => exact absurd rfl hne
        | cons c pre =>
          simp only [List.cons_append, List.head?_cons] at hh ⊢
          exact hh (by omega)
      · right
        rw [List.length_append, List.length_singleton, Nat.add_sub_cancel]
        have hlen : 1 ≤ pre.length := by
          cases pre with
          | nil => exact absurd rfl hne
          | cons c pre => simp
        have h10 : 10 ^ (pre.length - 1) ≤ n / 10 := by
          rcases hl with hl | hl
          · rw [hl]; simp; omega
          · exact hl
        have : 10 ^ pre.length = 10 * 10 ^ (pre.length - 1) := by
          rw [← pow_succ']; congr 1; omega
        rw [this]
        omega

theorem fmtNat_spec (n : Nat) :
    fmtNat n ≠ [] ∧ (∀ c ∈ fmtNat n, c.isDigit = true) ∧ readNat (fmtNat n) = n ∧
    (0 < n → (fmtNat n).head? ≠ some '0') ∧
    ((fmtNat n).length = 1 ∨ 10 ^ ((fmtNat n).length - 1) ≤ n) := by
  obtain ⟨pre, e, h⟩ := toDigitsCore_spec (n + 1) n [] (by omega)
  have : fmtNat n = pre := by
    unfold fmtNat Nat.toDigits
    rw [e, List.append_nil]
  rw [this]
  exact h

/-- The digits printed for `n` are the decimal numeral of `n`. -/
theorem isDecimalOf_fmtNat (n : Nat) : isDecimalOf (fmtNat n) n = true := by
  obtain ⟨h1, h2, h3, h4, h5⟩ := fmtNat_spec n
  unfold isDecimalOf
  simp only [Bool.and_eq_true, Bool.not_eq_true', List.isEmpty_eq_false, List.all_eq_true,
    Bool.or_eq_true, beq_iff_eq, bne_iff_ne]
  refine ⟨⟨⟨h1, h2⟩, ?_⟩, h3⟩
  rcases Nat.eq_zero_or_pos n with h0 | hpos
  · left
    rcases h5 with h5 | h5
    · exact h5
    · rw [h0] at h5
      have : 0 < 10 ^ ((fmtNat 0).length - 1) := by positivity
      rw [h0]; omega
  · exact Or.inr (h4 hpos)

theorem length_fmtNat_le (n k : Nat) (hk : 1 ≤ k) (h : n < 10 ^ k) : (fmtNat n).length ≤ k := by
  obtain ⟨_, _, _, _, h5⟩ := fmtNat_spec n
  rcases h5 with h5 | h5
  · omega
  · by_contra hc
    have : 10 ^ k ≤ 10 ^ ((fmtNat n).length - 1) :=
      Nat.pow_le_pow_right (by norm_num) (by omega)
    omega

/-- The conversion `%ld` of a non-negative `long` prints its decimal numeral. -/
theorem isDecimalOf_fmtLd (t : Nat) : isDecimalOf (fmtLd (t : Int)) t = true := by
  unfold fmtLd
  rw [if_neg (by omega), Int.natAbs_ofNat]
  exact isDecimalOf_fmtNat t

/-- The rounded quotient is within half a unit of the quotient. -/
theorem rne_close (n d : Nat) (hd : 0 < d) :
    2 * (rne n d * d) ≤ 2 * n + d ∧ 2 * n ≤ 2 * (rne n d * d) + d := by
  have e := Nat.div_add_mod n d
  have hr := Nat.mod_lt n hd
  have hq : (n / d + 1) * d = d * (n / d) + d := by ring
  have hq0 : n / d * d = d * (n / d) := by ring
  unfold rne
  split
  · rw [hq0]
    generalize d * (n / d) = x at e
    omega
  · split
    · rw [hq]
      generalize d * (n / d) = x at e
      omega
    · rcases Nat.mod_two_eq_zero_or_one (n / d) with h2 | h2
      · rw [h2, Nat.add_zero, hq0]
        generalize d * (n / d) = x at e
        omega
      · rw [h2, hq]
        generalize d * (n / d) = x at e
        omega

theorem isFixed6Of_intro (ip fp : List Char) (x : ℚ)
    (hip : isDecimalOf ip (readNat ip) = true) (hfl : fp.length = 6)
    (hfd : ∀ c ∈ fp, c.isDigit = true)
    (hx : |(readNat (ip ++ fp) : ℚ) / 10 ^ 6 - x| ≤ 1 / (2 * 10 ^ 6)) :
    isFixed6Of (ip ++ '.' :: fp) x = true := by
  have hipd : ∀ c ∈ ip, (c != '.') = true := by
    intro c hc
    have : ip.all Char.isDigit = true := by
      unfold isDecimalOf at hip
      simp only [Bool.and_eq_true] at hip
      exact hip.1.1.2
    exact isDigit_ne_point c (List.all_eq_true.1 this c hc)
  have ht : (ip ++ '.' :: fp).takeWhile (fun c => c != '.') = ip := by
    rw [List.takeWhile_append_of_pos hipd]
    simp
  have hdr : (ip ++ '.' :: fp).dropWhile (fun c => c != '.') = '.' :: fp := by
    rw [List.dropWhile_append_of_pos hipd]
    simp
  unfold isFixed6Of
  simp only [ht, hdr, List.head?_cons, List.drop_one, List.tail_cons, Bool.and_eq_true,
    beq_iff_eq, decide_eq_true_eq, List.all_eq_true]
  exact ⟨⟨⟨⟨trivial, hip⟩, hfl⟩, hfd⟩, hx⟩

/-- The conversion `%f` of a float between 0 and 1 prints a numeral with six digits
after the point that is within half a unit of the sixth place of the float. -/
theorem isFixed6Of_fmtF (bits : Nat) (h : bits ≤ 0x3F800000) :
    isFixed6Of (fmtF bits) (f32ToRat bits) = true := by
  have hs : f32Sign bits = 0 := by unfold f32Sign; norm_num; omega
  have he : f32Exp bits ≠ 255 := by unfold f32Exp; norm_num; omega
  have hfrac : (fmtNat (rne (f32Mag bits * 10 ^ 6) (2 ^ 150) % 10 ^ 6)).length ≤ 6 :=
    length_fmtNat_le _ 6 (by norm_num) (Nat.mod_lt _ (by norm_num))
  have hval : f32ToRat bits = (f32Mag bits : ℚ) / 2 ^ 150 := by
    unfold f32ToRat
    rw [hs, if_neg (by norm_num), one_mul]
  have hshape : fmtF bits =
      fmtNat (rne (f32Mag bits * 10 ^ 6) (2 ^ 150) / 10 ^ 6) ++ '.' ::
        (List.replicate (6 - (fmtNat (rne (f32Mag bits * 10 ^ 6) (2 ^ 150) % 10 ^ 6)).length) '0'
          ++ fmtNat (rne (f32Mag bits * 10 ^ 6) (2 ^ 150) % 10 ^ 6)) := by
    unfold fmtF
    simp only [hs, if_neg he]
    simp
  rw [hshape]
  generalize hq : rne (f32Mag bits * 10 ^ 6) (2 ^ 150) = q at hfrac ⊢
  obtain ⟨_, hd1, hr1, _, _⟩ := fmtNat_spec (q / 10 ^ 6)
  obtain ⟨_, hd2, hr2, _, _⟩ := fmtNat_spec (q % 10 ^ 6)
  apply isFixed6Of_intro
  · rw [hr1]; exact isDecimalOf_fmtNat _
  · rw [List.length_append, List.length_replicate]; omega
  · intro c hc
    rcases List.mem_append.1 hc with hc | hc
    · rw [(List.mem_replicate.1 hc).2]; decide
    · exact hd2 c hc
  · have hlen : (List.replicate (6 - (fmtNat (q % 10 ^ 6)).length) '0'
        ++ fmtNat (q % 10 ^ 6)).length = 6 := by
      rw [List.length_append, List.length_replicate]; omega
    have hread : readNat (fmtNat (q / 10 ^ 6) ++
        (List.replicate (6 - (fmtNat (q % 10 ^ 6)).length) '0' ++ fmtNat (q % 10 ^ 6))) = q := by
      rw [readNat_append, hlen, readNat_append, readNat_replicate_zero, hr1, hr2,
        Nat.zero_mul, Nat.zero_add]
      exact Nat.div_add_mod' q (10 ^ 6)
    rw [hread, hval]
    obtain ⟨c1, c2⟩ := rne_close (f32Mag bits * 10 ^ 6) (2 ^ 150) (by positivity)
    rw [hq] at c1 c2
    have c1q : (2 : ℚ) * ((q : ℚ) * 2 ^ 150) ≤ 2 * ((f32Mag bits : ℚ) * 10 ^ 6) + 2 ^ 150 := by
      exact_mod_cast c1
    have c2q : (2 : ℚ) * ((f32Mag bits : ℚ) * 10 ^ 6) ≤ 2 * ((q : ℚ) * 2 ^ 150) + 2 ^ 150 := by
      exact_mod_cast c2
    have key : (q : ℚ) / 10 ^ 6 - (f32Mag bits : ℚ) / 2 ^ 150 =
        ((q : ℚ) * 2 ^ 150 - (f32Mag bits : ℚ) * 10 ^ 6) / (10 ^ 6 * 2 ^ 150) := by
      field_simp
      ring
    generalize (q : ℚ) * 2 ^ 150 = A at c1q c2q key
    generalize (f32Mag bits : ℚ) * 10 ^ 6 = B at c1q c2q key
    rw [key, abs_le]
    constructor
    · rw [le_div_iff₀ (by positivity)]
      linarith
    · rw [div_le_iff₀ (by positivity)]
      linarith

/-- The text that `render_record` gives is a line for the record in the sense of
`IsLineOf`. -/
theorem isLineOf_render_record (RAND_MAX : Nat) (rnd : Nat → Nat) (k : Nat)
    (hR : 0 < RAND_MAX) (hR2 : RAND_MAX < 2 ^ 31) (hrnd : ∀ j, rnd j ≤ RAND_MAX) :
    IsLineOf RAND_MAX rnd k (render_record RAND_MAX rnd k) := by
  have hv : ∀ r, r ≤ RAND_MAX →
      isFixed6Of (fmtF (randFloat RAND_MAX r)) (f32ToRat (randFloat RAND_MAX r)) = true :=
    fun r hr => isFixed6Of_fmtF _ (randFloat_le_one RAND_MAX r hR hR2 hr)
  unfold IsLineOf render_record
  split
  · exact ⟨_, _, rfl, hv _ (hrnd _), isDecimalOf_fmtLd _⟩
  · split
    · exact ⟨fun j => fmtF (randFloat RAND_MAX (rnd (k + 1 + j))), _, rfl,
        fun j _ => hv _ (hrnd _), isDecimalOf_fmtLd _⟩
    · rfl

/-- Through `main.c`, `export` and `fread`, the reader prints for record `i` the text
that `render_record` gives for the values generated for it. -/
theorem print_record_read_back (m : DataModel) (RAND_MAX : Nat) (rnd : Nat → Nat)
    (dataW dataR : List Nat) (hW : dataW.length = 100 * ExportData.sizeof m)
    (hR : dataR.length = 100 * ExportData.sizeof m) (hmax : RAND_MAX < 2 ^ 31)
    (hrnd : ∀ j, rnd j ≤ RAND_MAX) (i : Nat) (hi : i < 100) :
    print_record m (fread dataR 0 (ExportData.sizeof m) 100
        (MainC.main m RAND_MAX rnd dataW).1).1 i =
      render_record RAND_MAX rnd (rand_calls rnd i) := by
  rw [fread_main_file m RAND_MAX rnd dataW dataR hW hR]
  exact print_record_generated m RAND_MAX rnd _ (generate_loop m RAND_MAX rnd i dataW).1 i
    (rand_calls rnd i)
    (by rw [length_generate_loop, hW]; exact elem_fits m i 100 hi)
    (image_generate_loop m RAND_MAX rnd dataW i 100 hi)
    (Or.inr (fun j => lt_of_le_of_lt (hrnd j) hmax))

theorem sample_rand_le (j : Nat) : sample_rand j ≤ 32767 := by
  rcases Nat.lt_or_ge j 36 with h | h
  · interval_cases j <;> decide
  · unfold sample_rand
    rw [List.getD_eq_default _ _ (by simpa using h)]
    decide

set_option exponentiation.threshold 512 in
set_option maxRecDepth 20000 in
/-- The texts of the first three records of the sample run: a Value record, a
MultiValue record and a Message record. -/
theorem render_record_sample :
    render_record 32767 sample_rand (rand_calls sample_rand 0) =
      "Value: 0.500015, timestamp: 77".toList ∧
    render_record 32767 sample_rand (rand_calls sample_rand 1) =
      ("MValue: 0.000000 0.000031 0.000061 0.000092 1.000000 0.000153 0.000183 0.000214 "
        ++ "0.000244 0.000275 , timestamp: 12345").toList ∧
    render_record 32767 sample_rand (rand_calls sample_rand 2) =
      "Message: abcdefghijklmnopqrsz".toList := by
  refine ⟨?_, ?_, ?_⟩ <;> decide

/-! ## The properties of the specification -/

/-- C1. Round trip: when `export` has written the `n` records of `data` and `fread`
reads records of `sizeof(ExportData)` bytes back into an array of `count` records, as
`read_out.c` does with `count = 100`, it reads `min n count` records, and every record
it reads is equal to the original at the same index: the same bytes, hence the same
`type`, the same inner `type`, `val`, `val[0..9]`, `message[0..20]` and `timestamp`.
This holds for every content of the records, the well-typed ones included. -/
theorem export_fread_roundtrip (m : DataModel) (data buf : List Nat) (n count : Nat)
    (hd : data.length = n * ExportData.sizeof m)
    (hb : buf.length = count * ExportData.sizeof m) :
    (fread buf 0 (ExportData.sizeof m) count (export_ m data 0 n [])).2 = min n count ∧
    ∀ i, i < n → i < count →
      loadBytes (fread buf 0 (ExportData.sizeof m) count (export_ m data 0 n [])).1
          (addr_elem m 0 i) (ExportData.sizeof m) =
        loadBytes data (addr_elem m 0 i) (ExportData.sizeof m) ∧
      loadInt (fread buf 0 (ExportData.sizeof m) count (export_ m data 0 n [])).1
          (addr_type (addr_elem m 0 i)) = loadInt data (addr_type (addr_elem m 0 i)) ∧
      loadInt (fread buf 0 (ExportData.sizeof m) count (export_ m data 0 n [])).1
          (addr_val_type m (addr_elem m 0 i)) = loadInt data (addr_val_type m (addr_elem m 0 i)) ∧
      loadFloat (fread buf 0 (ExportData.sizeof m) count (export_ m data 0 n [])).1
          (addr_val_val m (addr_elem m 0 i)) = loadFloat data (addr_val_val m (addr_elem m 0 i)) ∧
      loadLong m (fread buf 0 (ExportData.sizeof m) count (export_ m data 0 n [])).1
          (addr_val_timestamp m (addr_elem m 0 i)) =
        loadLong m data (addr_val_timestamp m (addr_elem m 0 i)) ∧
      loadInt (fread buf 0 (ExportData.sizeof m) count (export_ m data 0 n [])).1
          (addr_mvals_type m (addr_elem m 0 i)) =
        loadInt data (addr_mvals_type m (addr_elem m 0 i)) ∧
      (∀ j, j < 10 →
        loadFloat (fread buf 0 (ExportData.sizeof m) count (export_ m data 0 n [])).1
            (addr_mvals_val m (addr_elem m 0 i) j) =
          loadFloat data (addr_mvals_val m (addr_elem m 0 i) j)) ∧
      loadLong m (fread buf 0 (ExportData.sizeof m) count (export_ m data 0 n [])).1
          (addr_mvals_timestamp m (addr_elem m 0 i)) =
        loadLong m data (addr_mvals_timestamp m (addr_elem m 0 i)) ∧
      loadInt (fread buf 0 (ExportData.sizeof m) count (export_ m data 0 n [])).1
          (addr_messages_type m (addr_elem m 0 i)) =
        loadInt data (addr_messages_type m (addr_elem m 0 i)) ∧
      (∀ j, j < 21 →
        loadChar (fread buf 0 (ExportData.sizeof m) count (export_ m data 0 n [])).1
            (addr_messages_message m (addr_elem m 0 i) j) =
          loadChar data (addr_messages_message m (addr_elem m 0 i) j)) := by
  obtain ⟨b1, b2, b3, b4, b5, b6⟩ := layout_bounds m
  rw [export_all m data n hd]
  refine ⟨fread_items buf _ n count data (sizeof_pos m) hd, ?_⟩
  intro i hin hic
  have himg : loadBytes (fread buf 0 (ExportData.sizeof m) count data).1 (addr_elem m 0 i)
      (ExportData.sizeof m) = loadBytes data (addr_elem m 0 i) (ExportData.sizeof m) := by
    apply loadBytes_congr
    intro j h1 h2
    apply getElem?_fread buf _ n count data hd hb j
    have : (i + 1) * ExportData.sizeof m ≤ min n count * ExportData.sizeof m :=
      Nat.mul_le_mul_right _ (by simp only [le_min_iff]; omega)
    rw [Nat.add_mul] at this
    simp only [addr_elem] at h2
    omega
  refine ⟨himg, ?_, ?_, ?_, ?_, ?_, ?_, ?_, ?_, ?_⟩
  · exact loadInt_of_image _ _ _ _ _ himg (by simp only [addr_type]; omega)
      (by simp only [addr_type]; omega)
  · exact loadInt_of_image _ _ _ _ _ himg (by simp only [addr_val_type]; omega)
      (by simp only [addr_val_type]; omega)
  · exact loadFloat_of_image _ _ _ _ _ himg (by simp only [addr_val_val]; omega)
      (by simp only [addr_val_val, off_val_ValueStruct]; omega)
  · exact loadLong_of_image m _ _ _ _ _ himg (by simp only [addr_val_timestamp]; omega)
      (by simp only [addr_val_timestamp, off_timestamp_ValueStruct]; omega)
  · exact loadInt_of_image _ _ _ _ _ himg (by simp only [addr_mvals_type]; omega)
      (by simp only [addr_mvals_type]; omega)
  · intro j hj
    exact loadFloat_of_image _ _ _ _ _ himg (by simp only [addr_mvals_val]; omega)
      (by simp only [addr_mvals_val, off_val_MValueStruct, sizeofFloat]; omega)
  · exact loadLong_of_image m _ _ _ _ _ himg (by simp only [addr_mvals_timestamp]; omega)
      (by simp only [addr_mvals_timestamp]; omega)
  · exact loadInt_of_image _ _ _ _ _ himg (by simp only [addr_messages_type]; omega)
      (by simp only [addr_messages_type]; omega)
  · intro j hj
    exact loadChar_of_image _ _ _ _ _ himg (by simp only [addr_messages_message]; omega)
      (by simp only [addr_messages_message, off_message_MessageStruct, sizeofChar]; omega)

theorem export_fread_roundtrip_witness :
    (List.replicate 52 7).length = 1 * ExportData.sizeof .LLP64 ∧
    (List.replicate 52 0).length = 1 * ExportData.sizeof .LLP64 ∧
    (fread (List.replicate 52 0) 0 (ExportData.sizeof .LLP64) 1
      (export_ .LLP64 (List.replicate 52 7) 0 1 [])).2 = min 1 1 ∧
    loadInt (fread (List.replicate 52 0) 0 (ExportData.sizeof .LLP64) 1
        (export_ .LLP64 (List.replicate 52 7) 0 1 [])).1 (addr_type (addr_elem .LLP64 0 0)) =
      loadInt (List.replicate 52 7) (addr_type (addr_elem .LLP64 0 0)) :=
  ⟨by decide, by decide,
    (export_fread_roundtrip .LLP64 (List.replicate 52 7) (List.replicate 52 0) 1 1
      (by decide) (by decide)).1,
    ((export_fread_roundtrip .LLP64 (List.replicate 52 7) (List.replicate 52 0) 1 1
      (by decide) (by decide)).2 0 (by decide) (by decide)).2.1⟩

/-- C2. The record that `generate_export_data` produces has its outer `type` equal to
the first result of `rand()` modulo 3, plus 1: one of `TYPE_VALUE`, `TYPE_MVALUE` and
`TYPE_MESSAGE`. -/
theorem generate_type_in_range (m : DataModel) (RAND_MAX : Nat) (rnd : Nat → Nat)
    (mem : List Nat) (p k : Nat) (hp : p + ExportData.sizeof m ≤ mem.length) :
    loadInt (generate_export_data m RAND_MAX rnd mem p k).1 (addr_type p) =
      (rnd k : Int) % 3 + 1 ∧
    (loadInt (generate_export_data m RAND_MAX rnd mem p k).1 (addr_type p) = TYPE_VALUE ∨
     loadInt (generate_export_data m RAND_MAX rnd mem p k).1 (addr_type p) = TYPE_MVALUE ∨
     loadInt (generate_export_data m RAND_MAX rnd mem p k).1 (addr_type p) = TYPE_MESSAGE) := by
  have h := loadInt_type_generate m RAND_MAX rnd mem p k hp
  refine ⟨h, ?_⟩
  rw [h]
  simp only [TYPE_VALUE, TYPE_MVALUE, TYPE_MESSAGE]
  omega

theorem generate_type_in_range_witness :
    0 + ExportData.sizeof .LP64 ≤ (List.replicate 64 0).length ∧
    loadInt (generate_export_data .LP64 32767 (fun _ => 4) (List.replicate 64 0) 0 0).1
      (addr_type 0) = ((4 : Nat) : Int) % 3 + 1 :=
  ⟨by decide,
    (generate_type_in_range .LP64 32767 (fun _ => 4) (List.replicate 64 0) 0 0 (by decide)).1⟩

/-- C3, as the code behaves. With `RAND_MAX = 2147483647` and `rand()` returning
`RAND_MAX` for the value of a Value record, the exact quotient is 1, not below 1, and
the float that `generate_export_data` stores in `val.val` is `1.0f`. -/
theorem value_one_at_RAND_MAX :
    ¬ (randQuotient 2147483647 2147483647 < 1) ∧
    loadFloat (generate_export_data .LP64 2147483647
      (fun i => if i = 1 then 2147483647 else 0) (List.replicate 64 0) 0 0).1
      (addr_val_val .LP64 0) = 0x3F800000 ∧
    f32ToRat 0x3F800000 = 1 := by
  refine ⟨by norm_num [randQuotient], ?_, f32ToRat_one⟩
  rw [loadFloat_val_generate .LP64 2147483647 _ _ 0 0 (by decide) (by decide)]
  exact randFloat_self 2147483647 (by norm_num) (by norm_num)

/-- C3, amended. For `0 < RAND_MAX ≤ INT_MAX` and results of `rand()` in
`0..RAND_MAX`, the value that `generate_export_data` stores in `val.val` of a Value
record is the float `(float)r / (float)RAND_MAX` for the second result `r` of
`rand()`; the exact quotient `r / RAND_MAX` lies in the closed interval from 0 to 1 and
is 1 exactly when `r = RAND_MAX`, and the float lies in the closed interval from 0 to 1
as well.  The same holds for `val[j]`, `j < 10`, of a MultiValue record, with result
`j + 2` of `rand()`. -/
theorem generated_value_in_closed_unit_interval (m : DataModel) (RAND_MAX : Nat)
    (rnd : Nat → Nat) (mem : List Nat) (p k : Nat)
    (hp : p + ExportData.sizeof m ≤ mem.length) (hR : 0 < RAND_MAX)
    (hR2 : RAND_MAX < 2 ^ 31) (hrnd : ∀ j, rnd j ≤ RAND_MAX) :
    ((rnd k : Int) % 3 + 1 = TYPE_VALUE →
      loadFloat (generate_export_data m RAND_MAX rnd mem p k).1 (addr_val_val m p) =
        randFloat RAND_MAX (rnd (k + 1)) ∧
      0 ≤ randQuotient RAND_MAX (rnd (k + 1)) ∧ randQuotient RAND_MAX (rnd (k + 1)) ≤ 1 ∧
      (randQuotient RAND_MAX (rnd (k + 1)) = 1 ↔ rnd (k + 1) = RAND_MAX) ∧
      0 ≤ f32ToRat (randFloat RAND_MAX (rnd (k + 1))) ∧
      f32ToRat (randFloat RAND_MAX (rnd (k + 1))) ≤ 1) ∧
    ((rnd k : Int) % 3 + 1 = TYPE_MVALUE → ∀ j, j < 10 →
      loadFloat (generate_export_data m RAND_MAX rnd mem p k).1 (addr_mvals_val m p j) =
        randFloat RAND_MAX (rnd (k + 1 + j)) ∧
      0 ≤ randQuotient RAND_MAX (rnd (k + 1 + j)) ∧
      randQuotient RAND_MAX (rnd (k + 1 + j)) ≤ 1 ∧
      (randQuotient RAND_MAX (rnd (k + 1 + j)) = 1 ↔ rnd (k + 1 + j) = RAND_MAX) ∧
      0 ≤ f32ToRat (randFloat RAND_MAX (rnd (k + 1 + j))) ∧
      f32ToRat (randFloat RAND_MAX (rnd (k + 1 + j))) ≤ 1) := by
  have key : ∀ r, r ≤ RAND_MAX →
      0 ≤ randQuotient RAND_MAX r ∧ randQuotient RAND_MAX r ≤ 1 ∧
      (randQuotient RAND_MAX r = 1 ↔ r = RAND_MAX) ∧
      0 ≤ f32ToRat (randFloat RAND_MAX r) ∧ f32ToRat (randFloat RAND_MAX r) ≤ 1 := by
    intro r hr
    obtain ⟨q1, q2, q3⟩ := randQuotient_bounds RAND_MAX r hR hr
    obtain ⟨f1, f2⟩ := f32ToRat_le_one _ (randFloat_le_one RAND_MAX r hR hR2 hr)
    exact ⟨q1, q2, q3, f1, f2⟩
  constructor
  · intro h
    have h0 : rnd k % 3 = 0 := by simp only [TYPE_VALUE] at h; omega
    exact ⟨loadFloat_val_generate m RAND_MAX rnd mem p k hp h0, key _ (hrnd _)⟩
  · intro h j hj
    have h1 : rnd k % 3 = 1 := by simp only [TYPE_MVALUE] at h; omega
    exact ⟨loadFloat_mvals_generate m RAND_MAX rnd mem p k hp h1 j hj, key _ (hrnd _)⟩

theorem generated_value_in_closed_unit_interval_witness :
    0 + ExportData.sizeof .LP64 ≤ (List.replicate 64 0).length ∧
    0 < 32767 ∧ 32767 < 2 ^ 31 ∧ (∀ j, (fun _ => 3 : Nat → Nat) j ≤ 32767) ∧
    (((fun _ => 3 : Nat → Nat) 0 : Nat) : Int) % 3 + 1 = TYPE_VALUE ∧
    f32ToRat (randFloat 32767 ((fun _ => 3 : Nat → Nat) (0 + 1))) ≤ 1 :=
  ⟨by decide, by decide, by decide, fun _ => (by decide : (3 : Nat) ≤ 32767), by decide,
    ((generated_value_in_closed_unit_interval .LP64 32767 (fun _ => 3) (List.replicate 64 0)
      0 0 (by decide) (by decide) (by decide)
      (fun _ => (by decide : (3 : Nat) ≤ 32767))).1 (by decide)).2.2.2.2.2⟩

/-- C4. When the first result of `rand()` selects `TYPE_MESSAGE`,
`generate_export_data` puts into `message[0..19]` the bytes `'a' + rand() % 26`, all of
them between `'a'` and `'z'`, and into `message[20]` the null byte; the text of the
record has exactly 20 characters, all of them letters, all of them lower case. -/
theorem generate_message_text (m : DataModel) (RAND_MAX : Nat) (rnd : Nat → Nat)
    (mem : List Nat) (p k : Nat) (hp : p + ExportData.sizeof m ≤ mem.length)
    (h : (rnd k : Int) % 3 + 1 = TYPE_MESSAGE) :
    (∀ j, j < 20 →
      loadChar (generate_export_data m RAND_MAX rnd mem p k).1 (addr_messages_message m p j) =
        'a'.toNat + rnd (k + 1 + j) % 26 ∧
      'a'.toNat ≤
        loadChar (generate_export_data m RAND_MAX rnd mem p k).1 (addr_messages_message m p j) ∧
      loadChar (generate_export_data m RAND_MAX rnd mem p k).1 (addr_messages_message m p j) ≤
        'z'.toNat) ∧
    loadChar (generate_export_data m RAND_MAX rnd mem p k).1 (addr_messages_message m p 20) = 0 ∧
    fmtS (generate_export_data m RAND_MAX rnd mem p k).1 (addr_messages_message m p 0) =
      (message_letters rnd k).map Char.ofNat ∧
    (fmtS (generate_export_data m RAND_MAX rnd mem p k).1
      (addr_messages_message m p 0)).length = 20 ∧
    ∀ c ∈ fmtS (generate_export_data m RAND_MAX rnd mem p k).1 (addr_messages_message m p 0),
      c.isAlpha = true ∧ c.isLower = true := by
  have h2 : rnd k % 3 = 2 := by simp only [TYPE_MESSAGE] at h; omega
  have hs : fmtS (generate_export_data m RAND_MAX rnd mem p k).1 (addr_messages_message m p 0) =
      (message_letters rnd k).map Char.ofNat := by
    apply fmtS_of_loadBytes
    · rw [length_message_letters, ← message_bytes_eq]
      exact loadBytes_message_generate m RAND_MAX rnd mem p k hp h2
    · exact message_letters_ne_zero rnd k
  have ha : 'a'.toNat = 97 := rfl
  have hz : 'z'.toNat = 122 := rfl
  refine ⟨?_, ?_, hs, ?_, ?_⟩
  · intro j hj
    have := loadChar_of_loadBytes _ _ _
      (getElem?_message_generate m RAND_MAX rnd mem p k hp h2 j (by omega))
    rw [if_pos hj] at this
    rw [this, ha, hz]
    omega
  · have := loadChar_of_loadBytes _ _ _
      (getElem?_message_generate m RAND_MAX rnd mem p k hp h2 20 (by omega))
    rw [if_neg (by omega)] at this
    exact this
  · rw [hs, List.length_map, length_message_letters]
  · intro c hc
    rw [hs] at hc
    simp only [message_letters, List.mem_map] at hc
    obtain ⟨b, ⟨j, _, rfl⟩, rfl⟩ := hc
    exact ⟨letter_isAlpha _ (Nat.mod_lt _ (by norm_num)),
      letter_isLower _ (Nat.mod_lt _ (by norm_num))⟩

theorem generate_message_text_witness :
    0 + ExportData.sizeof .LP64 ≤ (List.replicate 64 0).length ∧
    (((fun _ => 5 : Nat → Nat) 0 : Nat) : Int) % 3 + 1 = TYPE_MESSAGE ∧
    (fmtS (generate_export_data .LP64 32767 (fun _ => 5) (List.replicate 64 0) 0 0).1
      (addr_messages_message .LP64 0 0)).length = 20 :=
  ⟨by decide, by decide,
    (generate_message_text .LP64 32767 (fun _ => 5) (List.replicate 64 0) 0 0 (by decide)
      (by decide)).2.2.2.1⟩

/-- C5, as the code behaves. A file of 100 records whose outer `type` is 0: the reader
prints nothing for any of them but the newline, and ends with status 0; there is no
error. -/
theorem read_out_unknown_type_silent :
    ReadOut.main .LP64 (List.replicate 6400 0) (List.replicate 6400 255) =
      (List.replicate 100 '\n', 0) := by
  unfold ReadOut.main
  simp only
  rw [fread_all _ _ 100 _ (by rw [List.length_replicate]; rfl)
    (by rw [List.length_replicate]; rfl)]
  rw [print_loop_zero_bytes .LP64 6400 100 (by decide)]

/-- C5, amended. For a record whose outer `type` is not 1, 2 or 3 the reader prints
nothing but the newline that ends every record, reports no error, and goes on to the
next record. -/
theorem print_record_unknown_type (m : DataModel) (data : List Nat) (i : Nat)
    (h1 : loadInt data (addr_type (addr_elem m 0 i)) ≠ TYPE_VALUE)
    (h2 : loadInt data (addr_type (addr_elem m 0 i)) ≠ TYPE_MVALUE)
    (h3 : loadInt data (addr_type (addr_elem m 0 i)) ≠ TYPE_MESSAGE) :
    print_record m data i = [] ∧
    print_loop m data (i + 1) = print_loop m data i ++ ['\n'] := by
  have h : print_record m data i = [] := print_record_unknown m data i h1 h2 h3
  exact ⟨h, by rw [print_loop, h, List.nil_append]⟩

theorem print_record_unknown_type_witness :
    loadInt (List.replicate 64 0) (addr_type (addr_elem .LP64 0 0)) ≠ TYPE_VALUE ∧
    loadInt (List.replicate 64 0) (addr_type (addr_elem .LP64 0 0)) ≠ TYPE_MVALUE ∧
    loadInt (List.replicate 64 0) (addr_type (addr_elem .LP64 0 0)) ≠ TYPE_MESSAGE ∧
    print_record .LP64 (List.replicate 64 0) 0 = [] :=
  ⟨by decide, by decide, by decide,
    (print_record_unknown_type .LP64 (List.replicate 64 0) 0 (by decide) (by decide)
      (by decide)).1⟩

/-- C6, as the code behaves. A record generated in storage that held the byte 255
everywhere: byte 4 of the Value record, padding after the outer `type`, is written to
the file as 255, not as 0. -/
theorem export_padding_not_zero :
    isFieldByte .LP64
        (loadInt (generate_export_data .LP64 32767 (fun _ => 0) (List.replicate 64 255) 0 0).1
          (addr_type 0)) 4 = false ∧
      (export_ .LP64
        (generate_export_data .LP64 32767 (fun _ => 0) (List.replicate 64 255) 0 0).1
          0 1 [])[4]? = some 255 := by
  decide

/-- C6, amended. In the bytes that `export` writes for a record produced by
`generate_export_data`, every byte that is neither the outer `type` nor a member of the
variant that the `type` selects has the value that the storage of the record held there
before the call. -/
theorem export_keeps_unwritten_bytes (m : DataModel) (RAND_MAX : Nat) (rnd : Nat → Nat)
    (mem : List Nat) (p k j : Nat) (hp : p + ExportData.sizeof m ≤ mem.length)
    (hj : j < ExportData.sizeof m)
    (hf : isFieldByte m
      (loadInt (generate_export_data m RAND_MAX rnd mem p k).1 (addr_type p)) j = false) :
    (export_ m (generate_export_data m RAND_MAX rnd mem p k).1 p 1 [])[j]? = mem[p + j]? := by
  rw [loadInt_type_generate m RAND_MAX rnd mem p k hp] at hf
  rw [getElem?_export_one m _ p j hj]
  apply getElem?_generate
  right
  rw [Nat.add_sub_cancel_left]
  exact hf

theorem export_keeps_unwritten_bytes_witness :
    0 + ExportData.sizeof .LP64 ≤ (List.replicate 64 255).length ∧
    4 < ExportData.sizeof .LP64 ∧
    isFieldByte .LP64
      (loadInt (generate_export_data .LP64 32767 (fun _ => 0) (List.replicate 64 255) 0 0).1
        (addr_type 0)) 4 = false ∧
    (export_ .LP64
      (generate_export_data .LP64 32767 (fun _ => 0) (List.replicate 64 255) 0 0).1
        0 1 [])[4]? = (List.replicate 64 255)[0 + 4]? :=
  ⟨by decide, by decide, by decide,
    export_keeps_unwritten_bytes .LP64 32767 (fun _ => 0) (List.replicate 64 255) 0 0 4
      (by decide) (by decide) (by decide)⟩

/-- C7. Fixed width: for the record that `generate_export_data` produces, whatever its
variant, `export` writes `sizeof(ExportData)` bytes; this size is at least the size of
`MValueStruct`, the largest of the three variants, plus the size of the outer `type`;
and `export(data, n, pf)` writes `n` times this size. -/
theorem export_fixed_width (m : DataModel) (RAND_MAX : Nat) (rnd : Nat → Nat)
    (mem : List Nat) (p k : Nat) (pf : List Nat) (hp : p + ExportData.sizeof m ≤ mem.length) :
    (export_ m (generate_export_data m RAND_MAX rnd mem p k).1 p 1 pf).length =
      pf.length + ExportData.sizeof m ∧
    MValueStruct.sizeof m + sizeofInt ≤ ExportData.sizeof m ∧
    ValueStruct.sizeof m ≤ MValueStruct.sizeof m ∧
    MessageStruct.sizeof ≤ MValueStruct.sizeof m ∧
    ∀ (data : List Nat) (d n : Nat), d + n * ExportData.sizeof m ≤ data.length →
      (export_ m data d n pf).length = pf.length + n * ExportData.sizeof m := by
  refine ⟨?_, ?_, ?_, ?_, ?_⟩
  · rw [length_export _ _ _ _ _ (by rw [length_generate]; omega), Nat.one_mul]
  · cases m <;> decide
  · cases m <;> decide
  · cases m <;> decide
  · intro data d n h
    exact length_export m data d n pf h

theorem export_fixed_width_witness :
    0 + ExportData.sizeof .LP64 ≤ (List.replicate 64 0).length ∧
    0 + 1 * ExportData.sizeof .LP64 ≤ (List.replicate 64 9).length ∧
    (export_ .LP64 (generate_export_data .LP64 32767 (fun _ => 5) (List.replicate 64 0) 0 0).1
      0 1 []).length = ([] : List Nat).length + ExportData.sizeof .LP64 ∧
    (export_ .LP64 (List.replicate 64 9) 0 1 []).length =
      ([] : List Nat).length + 1 * ExportData.sizeof .LP64 :=
  ⟨by decide, by decide,
    (export_fixed_width .LP64 32767 (fun _ => 5) (List.replicate 64 0) 0 0 [] (by decide)).1,
    (export_fixed_width .LP64 32767 (fun _ => 5) (List.replicate 64 0) 0 0 []
      (by decide)).2.2.2.2 (List.replicate 64 9) 0 1 (by decide)⟩

/-- C8. End to end for text: when record `i` of the array that `main.c` generates is
a Message record, then after `export` and `fread` the reader prints for it
`Message: ` and the twenty letters that were generated, all twenty of them; the text
that `%s` reads ends at the null byte in `message[20]`. -/
theorem message_end_to_end (m : DataModel) (RAND_MAX : Nat) (rnd : Nat → Nat)
    (dataW dataR : List Nat) (hW : dataW.length = 100 * ExportData.sizeof m)
    (hR : dataR.length = 100 * ExportData.sizeof m) (i : Nat) (hi : i < 100)
    (hmsg : loadInt (generate_loop m RAND_MAX rnd 100 dataW).1 (addr_type (addr_elem m 0 i)) =
      TYPE_MESSAGE) :
    print_record m (fread dataR 0 (ExportData.sizeof m) 100
        (MainC.main m RAND_MAX rnd dataW).1).1 i =
      "Message: ".toList ++ (message_letters rnd (rand_calls rnd i)).map Char.ofNat ∧
    (message_letters rnd (rand_calls rnd i)).length = 20 ∧
    fmtS (fread dataR 0 (ExportData.sizeof m) 100 (MainC.main m RAND_MAX rnd dataW).1).1
        (addr_messages_message m (addr_elem m 0 i) 0) =
      (message_letters rnd (rand_calls rnd i)).map Char.ofNat ∧
    loadChar (fread dataR 0 (ExportData.sizeof m) 100 (MainC.main m RAND_MAX rnd dataW).1).1
      (addr_messages_message m (addr_elem m 0 i) 20) = 0 := by
  obtain ⟨b1, b2, b3, b4, b5, b6⟩ := layout_bounds m
  have h2 : rnd (rand_calls rnd i) % 3 = 2 := by
    rw [loadInt_type_generate_loop m RAND_MAX rnd dataW i 100 hi hW] at hmsg
    simp only [TYPE_MESSAGE] at hmsg
    omega
  have himg := image_generate_loop m RAND_MAX rnd dataW i 100 hi
  have hp : addr_elem m 0 i + ExportData.sizeof m ≤
      (generate_loop m RAND_MAX rnd i dataW).1.length := by
    rw [length_generate_loop, hW]; exact elem_fits m i 100 hi
  rw [fread_main_file m RAND_MAX rnd dataW dataR hW hR]
  refine ⟨?_, length_message_letters _ _, ?_, ?_⟩
  · rw [print_record_generated m RAND_MAX rnd _ _ i _ hp himg (Or.inl h2)]
    unfold render_record
    rw [if_neg (by omega), if_neg (by omega)]
  · apply fmtS_of_loadBytes
    · rw [length_message_letters, ← message_bytes_eq,
        loadBytes_of_image _ _ _ _ _ _ himg
          (by simp only [addr_messages_message]; omega)
          (by simp only [addr_messages_message, off_message_MessageStruct, sizeofChar]
              omega)]
      exact loadBytes_message_generate m RAND_MAX rnd _ _ _ hp h2
    · exact message_letters_ne_zero rnd _
  · rw [loadChar_of_image _ _ _ _ _ himg
        (by simp only [addr_messages_message]; omega)
        (by simp only [addr_messages_message, off_message_MessageStruct, sizeofChar]; omega)]
    have := loadChar_of_loadBytes _ _ _
      (getElem?_message_generate m RAND_MAX rnd _ _ _ hp h2 20 (by omega))
    rw [if_neg (by omega)] at this
    exact this

theorem message_end_to_end_witness :
    (List.replicate 6400 0).length = 100 * ExportData.sizeof .LP64 ∧
    (List.replicate 6400 1).length = 100 * ExportData.sizeof .LP64 ∧
    loadInt (generate_loop .LP64 32767 (fun _ => 5) 100 (List.replicate 6400 0)).1
      (addr_type (addr_elem .LP64 0 7)) = TYPE_MESSAGE ∧
    print_record .LP64 (fread (List.replicate 6400 1) 0 (ExportData.sizeof .LP64) 100
        (MainC.main .LP64 32767 (fun _ => 5) (List.replicate 6400 0)).1).1 7 =
      "Message: ".toList ++
        (message_letters (fun _ => 5) (rand_calls (fun _ => 5) 7)).map Char.ofNat :=
  have hW : (List.replicate 6400 0).length = 100 * ExportData.sizeof .LP64 := by
    rw [List.length_replicate]; rfl
  have hR : (List.replicate 6400 1).length = 100 * ExportData.sizeof .LP64 := by
    rw [List.length_replicate]; rfl
  have ht : loadInt (generate_loop .LP64 32767 (fun _ => 5) 100 (List.replicate 6400 0)).1
      (addr_type (addr_elem .LP64 0 7)) = TYPE_MESSAGE := by
    rw [loadInt_type_generate_loop .LP64 32767 (fun _ => 5) _ 7 100 (by decide) hW]
    decide
  ⟨hW, hR, ht,
    (message_end_to_end .LP64 32767 (fun _ => 5) (List.replicate 6400 0)
      (List.replicate 6400 1) hW hR 7 (by decide) ht).1⟩

/-- C9. For the 100 records that `main.c` generates and writes, the output of
`read_out.c` is, in the order of the file, 100 lines, each followed by one newline and
none containing a newline, so the output has exactly 100 newlines.  Line `i` stands
for record `i`: for a Value record it is `Value: `, the value, `, timestamp: ` and the
timestamp; for a MultiValue record it is `MValue: `, `val[0]` to `val[9]` in this
order, a space after each, `, timestamp: ` and the timestamp; for a Message record it
is `Message: ` and the text.  Every value is printed as a decimal numeral with six
digits after the point that is within half a unit of the sixth place of the float in
the record, and every timestamp as its decimal numeral. -/
theorem read_out_output (m : DataModel) (RAND_MAX : Nat) (rnd : Nat → Nat)
    (dataW dataR : List Nat) (hW : dataW.length = 100 * ExportData.sizeof m)
    (hR : dataR.length = 100 * ExportData.sizeof m) (hpos : 0 < RAND_MAX)
    (hmax : RAND_MAX < 2 ^ 31) (hrnd : ∀ j, rnd j ≤ RAND_MAX) :
    ∃ line : Nat → List Char,
      (ReadOut.main m (MainC.main m RAND_MAX rnd dataW).1 dataR).1 =
        (List.range 100).flatMap (fun i => line i ++ ['\n']) ∧
      (∀ i, i < 100 →
        '\n' ∉ line i ∧ IsLineOf RAND_MAX rnd (rand_calls rnd i) (line i)) ∧
      ((ReadOut.main m (MainC.main m RAND_MAX rnd dataW).1 dataR).1).count '\n' = 100 := by
  have hout : (ReadOut.main m (MainC.main m RAND_MAX rnd dataW).1 dataR).1 =
      (List.range 100).flatMap
        (fun i => render_record RAND_MAX rnd (rand_calls rnd i) ++ ['\n']) := by
    unfold ReadOut.main
    simp only
    rw [print_loop_eq]
    apply List.flatMap_congr
    intro i hi
    rw [print_record_read_back m RAND_MAX rnd dataW dataR hW hR hmax hrnd i
      (List.mem_range.1 hi)]
  refine ⟨fun i => render_record RAND_MAX rnd (rand_calls rnd i), hout, ?_, ?_⟩
  · intro i _
    exact ⟨render_record_no_newline RAND_MAX rnd _,
      isLineOf_render_record RAND_MAX rnd _ hpos hmax hrnd⟩
  · rw [hout]
    exact count_newline_lines _ (fun i => render_record_no_newline RAND_MAX rnd _) 100

theorem read_out_output_witness :
    (List.replicate 5200 0).length = 100 * ExportData.sizeof .LLP64 ∧
    (List.replicate 5200 1).length = 100 * ExportData.sizeof .LLP64 ∧
    0 < 32767 ∧ 32767 < 2 ^ 31 ∧ (∀ j, sample_rand j ≤ 32767) ∧
    (∃ line : Nat → List Char,
      (ReadOut.main .LLP64 (MainC.main .LLP64 32767 sample_rand (List.replicate 5200 0)).1
          (List.replicate 5200 1)).1 =
        (List.range 100).flatMap (fun i => line i ++ ['\n']) ∧
      (∀ i, i < 100 →
        '\n' ∉ line i ∧ IsLineOf 32767 sample_rand (rand_calls sample_rand i) (line i)) ∧
      ((ReadOut.main .LLP64 (MainC.main .LLP64 32767 sample_rand (List.replicate 5200 0)).1
        (List.replicate 5200 1)).1).count '\n' = 100) ∧
    print_record .LLP64 (fread (List.replicate 5200 1) 0 (ExportData.sizeof .LLP64) 100
        (MainC.main .LLP64 32767 sample_rand (List.replicate 5200 0)).1).1 0 =
      "Value: 0.500015, timestamp: 77".toList ∧
    print_record .LLP64 (fread (List.replicate 5200 1) 0 (ExportData.sizeof .LLP64) 100
        (MainC.main .LLP64 32767 sample_rand (List.replicate 5200 0)).1).1 1 =
      ("MValue: 0.000000 0.000031 0.000061 0.000092 1.000000 0.000153 0.000183 0.000214 "
        ++ "0.000244 0.000275 , timestamp: 12345").toList ∧
    print_record .LLP64 (fread (List.replicate 5200 1) 0 (ExportData.sizeof .LLP64) 100
        (MainC.main .LLP64 32767 sample_rand (List.replicate 5200 0)).1).1 2 =
      "Message: abcdefghijklmnopqrsz".toList :=
  have hW : (List.replicate 5200 0).length = 100 * ExportData.sizeof .LLP64 := by
    rw [List.length_replicate]; rfl
  have hR : (List.replicate 5200 1).length = 100 * ExportData.sizeof .LLP64 := by
    rw [List.length_replicate]; rfl
  ⟨hW, hR, by decide, by decide, sample_rand_le,
    read_out_output .LLP64 32767 sample_rand (List.replicate 5200 0) (List.replicate 5200 1)
      hW hR (by decide) (by decide) sample_rand_le,
    (print_record_read_back .LLP64 32767 sample_rand _ _ hW hR (by decide) sample_rand_le 0
      (by decide)).trans render_record_sample.1,
    (print_record_read_back .LLP64 32767 sample_rand _ _ hW hR (by decide) sample_rand_le 1
      (by decide)).trans render_record_sample.2.1,
    (print_record_read_back .LLP64 32767 sample_rand _ _ hW hR (by decide) sample_rand_le 2
      (by decide)).trans render_record_sample.2.2⟩

/-- C10. Tag invariant: after `generate_export_data` the `type` inside the variant
that the outer `type` selects (`val.type`, `mvals.type` or `messages.type`) is equal to
the outer `type`. -/
theorem generate_tag_invariant (m : DataModel) (RAND_MAX : Nat) (rnd : Nat → Nat)
    (mem : List Nat) (p k : Nat) (hp : p + ExportData.sizeof m ≤ mem.length) :
    (loadInt (generate_export_data m RAND_MAX rnd mem p k).1 (addr_type p) = TYPE_VALUE →
      loadInt (generate_export_data m RAND_MAX rnd mem p k).1 (addr_val_type m p) =
        loadInt (generate_export_data m RAND_MAX rnd mem p k).1 (addr_type p)) ∧
    (loadInt (generate_export_data m RAND_MAX rnd mem p k).1 (addr_type p) = TYPE_MVALUE →
      loadInt (generate_export_data m RAND_MAX rnd mem p k).1 (addr_mvals_type m p) =
        loadInt (generate_export_data m RAND_MAX rnd mem p k).1 (addr_type p)) ∧
    (loadInt (generate_export_data m RAND_MAX rnd mem p k).1 (addr_type p) = TYPE_MESSAGE →
      loadInt (generate_export_data m RAND_MAX rnd mem p k).1 (addr_messages_type m p) =
        loadInt (generate_export_data m RAND_MAX rnd mem p k).1 (addr_type p)) := by
  have h1 := loadInt_type_generate m RAND_MAX rnd mem p k hp
  have h2 := loadInt_inner_type_generate m RAND_MAX rnd mem p k hp
  refine ⟨fun _ => ?_, fun _ => ?_, fun _ => ?_⟩
  · rw [h1, h2]
  · rw [h1]; exact h2
  · rw [h1]; exact h2

theorem generate_tag_invariant_witness :
    0 + ExportData.sizeof .LP64 ≤ (List.replicate 64 0).length ∧
    loadInt (generate_export_data .LP64 32767 (fun _ => 4) (List.replicate 64 0) 0 0).1
      (addr_type 0) = TYPE_MVALUE ∧
    loadInt (generate_export_data .LP64 32767 (fun _ => 4) (List.replicate 64 0) 0 0).1
        (addr_mvals_type .LP64 0) =
      loadInt (generate_export_data .LP64 32767 (fun _ => 4) (List.replicate 64 0) 0 0).1
        (addr_type 0) :=
  ⟨by decide, by decide,
    (generate_tag_invariant .LP64 32767 (fun _ => 4) (List.replicate 64 0) 0 0
      (by decide)).2.1 (by decide)⟩

end Lab2
